import Mathlib

/-!
Shallow embedding of the `cache-primitives` caching engine
(packages/cache-handlers): header interpretation, cache-key derivation,
conditional validation, the read/write paths over an abstract store, the
atomic metadata-update protocol and tag invalidation, together with proofs
about the behaviour claimed by the specification.

Modelling conventions, shared by every definition below:
* JS strings are Lean `String`s (code points instead of UTF-16 units; all
  inputs of interest are ASCII). The JS string primitives (`split`, `trim`,
  `toLowerCase`, ...) are re-implemented here by structural recursion so that
  every definition evaluates inside the kernel.
* A JS `Headers` object is an association list of name/value pairs with
  case-insensitive lookup (`hGet`) and lowercase-normalising `set` (`hSet`);
  `headers.get` of a missing name (JS `null`) is `none`.
* JS objects used as string-keyed records are association lists in insertion
  order (`recGet`/`recSet`/`recDelete`).
* JS `Number(s)` is modelled for optionally-signed decimal integer literals
  (the only numeric forms cache directives use); `Number("") = 0` as in JS,
  anything else non-numeric is NaN (`none`).
* JS truthiness of the values that occur here is made explicit at each use
  (`strTruthy`, `DirValue.truthy`, `optIntTruthy`, ...).
-/

/-! ## JS string primitives -/

/-- `stripPfx? pat l` returns `some rest` when `l = pat ++ rest`. -/
def stripPfx? : List Char → List Char → Option (List Char)
  | [], l => some l
  | _ :: _, [] => none
  | p :: ps, c :: cs => if c == p then stripPfx? ps cs else none

/-- Fuel-driven worker for `jsSplit` (the fuel is an upper bound on the number
of characters left to scan, so it never runs out at the call site). -/
def splitFuel (sep : List Char) : Nat → List Char → List Char → List (List Char)
  | 0, l, acc => [acc.reverse ++ l]
  | fuel + 1, l, acc =>
    match l with
    | [] => [acc.reverse]
    | c :: cs =>
      match stripPfx? sep (c :: cs) with
      | some rest => acc.reverse :: splitFuel sep fuel rest []
      | none => splitFuel sep fuel cs (c :: acc)

/-- JS `String.prototype.split` with a non-empty string separator
(`"".split(sep) = [""]`, separators at the edges produce empty fields).
An empty separator splits into single characters, as in JS. -/
def jsSplit (s sep : String) : List String :=
  match sep.data with
  | [] => s.data.map (fun c => String.mk [c])
  | s0 :: srest => (splitFuel (s0 :: srest) (s.data.length + 1) s.data []).map String.mk

/-- The whitespace class JS `trim` removes (ASCII part, which is all the
engine's inputs use). -/
def isJsWhitespace (c : Char) : Bool :=
  c == ' ' || c == '\t' || c == '\n' || c == '\r' || c == '\x0b' || c == '\x0c'

/-- JS `String.prototype.trim`. -/
def jsTrim (s : String) : String :=
  String.mk (((s.data.dropWhile isJsWhitespace).reverse.dropWhile isJsWhitespace).reverse)

/-- ASCII lowercasing of one character (JS `toLowerCase` on the engine's
ASCII header names). -/
def lowerChar (c : Char) : Char :=
  if 'A' ≤ c ∧ c ≤ 'Z' then Char.ofNat (c.toNat + 32) else c

/-- JS `String.prototype.toLowerCase` (ASCII). -/
def jsToLower (s : String) : String := String.mk (s.data.map lowerChar)

/-- Parse a non-empty all-digit character list as a natural number. -/
def digitsNat? (l : List Char) : Option Nat :=
  if l ≠ [] ∧ l.all Char.isDigit then
    some (l.foldl (fun a c => a * 10 + (c.toNat - 48)) 0)
  else none

/-- JS `Array.prototype.join`. -/
def joinStr (sep : String) : List String → String
  | [] => ""
  | [x] => x
  | x :: y :: xs => x ++ sep ++ joinStr sep (y :: xs)

/-- Stable insertion used by `sortBy`. -/
def insertBy {α : Type} (lt : α → α → Bool) (x : α) : List α → List α
  | [] => [x]
  | y :: ys => if lt y x then y :: insertBy lt x ys else x :: y :: ys

/-- Stable ascending sort (models JS `Array.prototype.sort`, which is
stable; the default string comparator is modelled by code-point order). -/
def sortBy {α : Type} (lt : α → α → Bool) (l : List α) : List α :=
  l.foldr (insertBy lt) []

/-- Lexicographic code-point comparison of character lists (the JS `<` on
strings, which compares code units — identical on the ASCII/BMP inputs the
engine sees). -/
def charsLt : List Char → List Char → Bool
  | [], [] => false
  | [], _ :: _ => true
  | _ :: _, [] => false
  | a :: xs, b :: ys =>
    if a.toNat < b.toNat then true
    else if b.toNat < a.toNat then false
    else charsLt xs ys

/-- JS string `<`. -/
def strLtB (a b : String) : Bool := charsLt a.data b.data

/-- JS default `sort()` on an array of strings. -/
def sortStrings (l : List String) : List String :=
  sortBy strLtB l

/-! ## JS records, headers and truthiness -/

/-- Case-insensitive header lookup, as `Headers.get` (single-valued). -/
def hGet (hs : List (String × String)) (name : String) : Option String :=
  (hs.find? (fun p => jsToLower p.1 == jsToLower name)).map (fun p => p.2)

/-- `Headers.set`: replace the first case-insensitive match (dropping later
duplicates) or append, storing the name lowercased as `Headers` does. -/
def hSet : List (String × String) → String → String → List (String × String)
  | [], n, v => [(jsToLower n, v)]
  | p :: rest, n, v =>
    if jsToLower p.1 == jsToLower n then
      (jsToLower n, v) :: rest.filter (fun q => !(jsToLower q.1 == jsToLower n))
    else p :: hSet rest n v

/-- JS object property read (`obj[k]`): first binding wins (keys are unique). -/
def recGet {α : Type} (m : List (String × α)) (k : String) : Option α :=
  (m.find? (fun p => p.1 == k)).map (fun p => p.2)

/-- JS object property write (`obj[k] = v`): overwrite in place, else append. -/
def recSet {α : Type} (m : List (String × α)) (k : String) (v : α) :
    List (String × α) :=
  if m.any (fun p => p.1 == k) then
    m.map (fun p => if p.1 == k then (k, v) else p)
  else m ++ [(k, v)]

/-- JS `delete obj[k]`. -/
def recDelete {α : Type} (m : List (String × α)) (k : String) :
    List (String × α) :=
  m.filter (fun p => !(p.1 == k))

/-- JS truthiness of a nullable string (`null` and `""` are falsy). -/
def strTruthy : Option String → Bool
  | none => false
  | some s => s ≠ ""

/-- JS `a || b` on nullable strings. -/
def strOr (a b : Option String) : Option String :=
  if strTruthy a then a else b

/-- JS truthiness of a possibly-undefined number (`undefined` and `0` falsy). -/
def optIntTruthy : Option Int → Bool
  | none => false
  | some n => n ≠ 0

/-- JS falsiness of a possibly-undefined number (`!x`). -/
def optIntFalsy (o : Option Int) : Bool := !(optIntTruthy o)

/-- JS `Number(s)` restricted to optionally-signed decimal integer literals;
`Number("")` is `0`, non-numeric input is NaN (`none`). -/
def jsNumber (s : String) : Option Int :=
  match s.data with
  | [] => some 0
  | '-' :: rest => (digitsNat? rest).map (fun n => -(n : Int))
  | l => (digitsNat? l).map (fun n => (n : Int))

/-! ## Header interpreter: parseCacheControl / parseCacheTags /
parseCacheVaryHeader (utils.ts) -/

/-- A value of the JS record returned by `parseCacheControl`:
string, number, or the boolean `true` for value-less directives. -/
inductive DirValue where
  | str (s : String)
  | num (n : Int)
  | flag
deriving DecidableEq, Repr

/-- JS truthiness of a `DirValue` (`!!directives[k]`). -/
def DirValue.truthy : DirValue → Bool
  | .str s => s ≠ ""
  | .num n => n ≠ 0
  | .flag => true

/-- Truthiness of `directives[k]` where a missing property is `undefined`. -/
def truthyAt (m : List (String × DirValue)) (k : String) : Bool :=
  match recGet m k with
  | some v => v.truthy
  | none => false

/-- `typeof directives[k] === "number"` projection used for `max-age` and
`stale-while-revalidate`. -/
def numAt (m : List (String × DirValue)) (k : String) : Option Int :=
  match recGet m k with
  | some (.num n) => some n
  | _ => none

/-- The regex `^["']|["']$` replacement of `parseCacheControl`: drop one
leading and one trailing quote character. -/
def stripQuotes (s : String) : String :=
  let isQuote : Char → Bool := fun c => c == '"' || c == Char.ofNat 39
  let l1 : List Char :=
    match s.data with
    | [] => []
    | c :: rest => if isQuote c then rest else c :: rest
  let l2 : List Char :=
    match l1.getLast? with
    | some c => if isQuote c then l1.dropLast else l1
    | none => l1
  String.mk l2

/-- utils.ts `parseCacheControl`: split on commas, trim, take the first two
`=`-separated fields of each part (`split("=", 2)`), lowercase the key, strip
quotes from the value and convert numeric values. -/
def parseCacheControl (headerValue : String) : List (String × DirValue) :=
  let parts := (jsSplit headerValue ",").map jsTrim
  parts.foldl
    (fun directives part =>
      let ps := jsSplit part "="
      let key := ps.headD ""
      if key = "" then directives
      else
        let cleanKey := jsToLower (jsTrim key)
        match ps[1]? with
        | some value =>
          let cleanValue := stripQuotes (jsTrim value)
          match jsNumber cleanValue with
          | some n => recSet directives cleanKey (.num n)
          | none => recSet directives cleanKey (.str cleanValue)
        | none => recSet directives cleanKey .flag)
    []

/-- utils.ts `parseCacheTags`: split on `", "` when present, else on `","`;
trim each tag and drop empties. -/
def parseCacheTags (headerValue : String) : List String :=
  let tags :=
    if (jsSplit headerValue ", ").length > 1 then jsSplit headerValue ", "
    else jsSplit headerValue ","
  (tags.map jsTrim).filter (fun t => t.length > 0)

/-- The parsed `cache-vary` rule (utils.ts `CacheVary`). -/
structure CacheVary where
  headers : List String
  cookies : List String
  query : List String
deriving DecidableEq, Repr

/-- utils.ts `parseCacheVaryHeader`: comma-separated `header=`/`cookie=`/
`query=` directives; a directive without `=` is skipped, the value is
everything after the first `=`. -/
def parseCacheVaryHeader (headerValue : String) : CacheVary :=
  let directives :=
    ((jsSplit headerValue ",").map jsTrim).filter (fun d => d.length > 0)
  directives.foldl
    (fun vary directive =>
      let parts := jsSplit directive "="
      if parts.length ≤ 1 then vary
      else
        let ty := jsTrim (parts.headD "")
        let v := jsTrim (joinStr "=" parts.tail)
        if ty = "header" then { vary with headers := vary.headers ++ [v] }
        else if ty = "cookie" then { vary with cookies := vary.cookies ++ [v] }
        else if ty = "query" then { vary with query := vary.query ++ [v] }
        else vary)
    ⟨[], [], []⟩

example : parseCacheControl "max-age=3600, public, must-revalidate" =
    [("max-age", .num 3600), ("public", .flag), ("must-revalidate", .flag)] := by
  decide

example : parseCacheControl "private, max-age=0, s-maxage=\"300\"" =
    [("private", .flag), ("max-age", .num 0), ("s-maxage", .num 300)] := by
  decide

example : parseCacheTags " user , , post , api " = ["user", "post", "api"] := by
  decide

example : parseCacheVaryHeader "header=Accept, header=User-Agent, cookie=theme" =
    ⟨["Accept", "User-Agent"], ["theme"], []⟩ := by
  decide

/-! ## Response / configuration model (types.ts) -/

/-- An HTTP response as the engine sees it: status line, headers, body
(`none` models a JS `null` body). -/
structure ResponseRec where
  status : Nat := 200
  statusText : String := ""
  headers : List (String × String) := []
  body : Option String := some ""
deriving DecidableEq, Repr

/-- The `etag` field of `ConditionalRequestConfig`
(`boolean | "generate" | "preserve-only"`). -/
inductive EtagOpt where
  | tt
  | ff
  | generate
  | preserveOnly
deriving DecidableEq, Repr

/-- types.ts `ConditionalRequestConfig` (the `etagGenerator` callback is not
modelled; no claim depends on a custom generator). `none` is an absent field. -/
structure ConditionalRequestConfig where
  etag : Option EtagOpt := none
  lastModified : Option Bool := none
  weakValidation : Option Bool := none
deriving DecidableEq, Repr

/-- The `features.conditionalRequests` union `boolean | ConditionalRequestConfig`;
`unset` is an absent field. -/
inductive CondFeature where
  | unset
  | enabled
  | disabled
  | cfg (c : ConditionalRequestConfig)
deriving DecidableEq, Repr

/-- types.ts `CacheConfig.features`; `none` models an absent (undefined)
field, so `f ≠ some false` is the JS test `features.f !== false`. -/
structure CacheFeatures where
  cacheControl : Option Bool := none
  cdnCacheControl : Option Bool := none
  cacheTags : Option Bool := none
  cacheVary : Option Bool := none
  conditionalRequests : CondFeature := .unset
deriving DecidableEq, Repr

/-- types.ts `CacheConfig` (cache selection and the custom `getCacheKey`
callback are not modelled: the key function is the default one throughout). -/
structure CacheConfig where
  features : Option CacheFeatures := none
  defaultTtl : Option Int := none
  maxTtl : Option Int := none
deriving DecidableEq, Repr

/-- utils.ts `ParsedCacheHeaders`. -/
structure ParsedCacheHeaders where
  shouldCache : Bool
  ttl : Option Int := none
  staleWhileRevalidate : Option Int := none
  tags : List String := []
  vary : Option CacheVary := none
  headersToRemove : List String := []
  isPrivate : Bool := false
  noCache : Bool := false
  noStore : Bool := false
  etag : Option String := none
  lastModified : Option String := none
  shouldGenerateETag : Bool := false
deriving DecidableEq, Repr

/-! ## parseResponseHeaders (utils.ts lines 207-314), written as a pipeline
of named fields so the theorems below can speak about each step. -/

/-- `config.features ?? {}`. -/
def featuresOf (config : CacheConfig) : CacheFeatures :=
  config.features.getD {}

/-- `cdnCacheControlHeader || cacheControlHeader` after the per-feature
enable checks (`features.x !== false`). -/
def finalCacheControlOf (r : ResponseRec) (c : CacheConfig) : Option String :=
  let f := featuresOf c
  let cc := if f.cacheControl ≠ some false then hGet r.headers "cache-control" else none
  let cdn := if f.cdnCacheControl ≠ some false then hGet r.headers "cdn-cache-control" else none
  strOr cdn cc

/-- The directives parsed from the winning cache-control header
(`if (finalCacheControl) { parseCacheControl(...) }`;
an absent or empty header contributes no directives). -/
def ccDirectivesOf (r : ResponseRec) (c : CacheConfig) : List (String × DirValue) :=
  match finalCacheControlOf r c with
  | some s => if s ≠ "" then parseCacheControl s else []
  | none => []

/-- `result.isPrivate = !!directives.private`. -/
def isPrivateOf (r : ResponseRec) (c : CacheConfig) : Bool :=
  truthyAt (ccDirectivesOf r c) "private"

/-- `result.noCache = !!directives["no-cache"]`. -/
def noCacheOf (r : ResponseRec) (c : CacheConfig) : Bool :=
  truthyAt (ccDirectivesOf r c) "no-cache"

/-- `result.noStore = !!directives["no-store"]`. -/
def noStoreOf (r : ResponseRec) (c : CacheConfig) : Bool :=
  truthyAt (ccDirectivesOf r c) "no-store"

/-- `result.ttl = directives["max-age"]` when it parsed as a number. -/
def ttlParsedOf (r : ResponseRec) (c : CacheConfig) : Option Int :=
  numAt (ccDirectivesOf r c) "max-age"

/-- `result.staleWhileRevalidate` when it parsed as a number. -/
def swrParsedOf (r : ResponseRec) (c : CacheConfig) : Option Int :=
  numAt (ccDirectivesOf r c) "stale-while-revalidate"

/-- `hasExplicitCacheHeaders`: a truthy winning cache-control header, or a
truthy raw `cache-tag` or `expires` header. -/
def hasExplicitOf (r : ResponseRec) (c : CacheConfig) : Bool :=
  strTruthy (finalCacheControlOf r c) || strTruthy (hGet r.headers "cache-tag") ||
    strTruthy (hGet r.headers "expires")

/-- The first assignment to `result.shouldCache`. -/
def shouldCache0Of (r : ResponseRec) (c : CacheConfig) : Bool :=
  hasExplicitOf r c && !isPrivateOf r c && !noCacheOf r c && !noStoreOf r c

/-- `if (result.shouldCache && !result.ttl && config.defaultTtl)
result.ttl = config.defaultTtl` (note `!result.ttl` is true for ttl `0`). -/
def ttlWithDefaultOf (r : ResponseRec) (c : CacheConfig) : Option Int :=
  if shouldCache0Of r c && optIntFalsy (ttlParsedOf r c) && optIntTruthy c.defaultTtl then
    c.defaultTtl
  else ttlParsedOf r c

/-- `!result.ttl || result.ttl <= 0`. -/
def ttlBad : Option Int → Bool
  | none => true
  | some t => t ≤ 0

/-- The final value of `result.shouldCache`. -/
def shouldCacheFinalOf (r : ResponseRec) (c : CacheConfig) : Bool :=
  if ttlBad (ttlWithDefaultOf r c) then false else shouldCache0Of r c

/-- `if (result.ttl && config.maxTtl && result.ttl > config.maxTtl)
result.ttl = config.maxTtl` — the final value of `result.ttl`. -/
def ttlFinalOf (r : ResponseRec) (c : CacheConfig) : Option Int :=
  match ttlWithDefaultOf r c, c.maxTtl with
  | some t, some m => if t ≠ 0 ∧ m ≠ 0 ∧ m < t then some m else some t
  | o, _ => o

/-- `result.tags` (feature-gated, truthy `cache-tag` header). -/
def tagsOf (r : ResponseRec) (c : CacheConfig) : List String :=
  if (featuresOf c).cacheTags ≠ some false then
    match hGet r.headers "cache-tag" with
    | some s => if s ≠ "" then parseCacheTags s else []
    | none => []
  else []

/-- `result.vary` (feature-gated, truthy `cache-vary` header). -/
def varyParsedOf (r : ResponseRec) (c : CacheConfig) : Option CacheVary :=
  if (featuresOf c).cacheVary ≠ some false then
    match hGet r.headers "cache-vary" with
    | some s => if s ≠ "" then some (parseCacheVaryHeader s) else none
    | none => none
  else none

/-- The conditional-request config object used inside `parseResponseHeaders`
(`typeof features.conditionalRequests === "object" ? ... : {}`). -/
def condObjOf (c : CacheConfig) : ConditionalRequestConfig :=
  match (featuresOf c).conditionalRequests with
  | .cfg o => o
  | _ => {}

/-- A truthy string option, or `none` (`if (x) result.f = x`). -/
def truthyOpt (o : Option String) : Option String :=
  match o with
  | some s => if s = "" then none else some s
  | none => none

/-- `result.etag` (set only when conditional requests are not disabled and
the header is truthy). -/
def etagFieldOf (r : ResponseRec) (c : CacheConfig) : Option String :=
  if (featuresOf c).conditionalRequests ≠ .disabled then
    truthyOpt (hGet r.headers "etag")
  else none

/-- `result.lastModified`. -/
def lastModifiedFieldOf (r : ResponseRec) (c : CacheConfig) : Option String :=
  if (featuresOf c).conditionalRequests ≠ .disabled then
    truthyOpt (hGet r.headers "last-modified")
  else none

/-- `result.shouldGenerateETag = !etag && conditionalConfig.etag === "generate"`. -/
def shouldGenerateETagOf (r : ResponseRec) (c : CacheConfig) : Bool :=
  (featuresOf c).conditionalRequests ≠ .disabled &&
    !(strTruthy (hGet r.headers "etag")) &&
    (condObjOf c).etag == some .generate

/-- `result.headersToRemove`, in push order: `cdn-cache-control`,
`cache-tag`, `cache-vary`. -/
def headersToRemoveOf (r : ResponseRec) (c : CacheConfig) : List String :=
  let f := featuresOf c
  (if strTruthy (if f.cdnCacheControl ≠ some false then hGet r.headers "cdn-cache-control" else none)
   then ["cdn-cache-control"] else []) ++
  (if f.cacheTags ≠ some false ∧ strTruthy (hGet r.headers "cache-tag")
   then ["cache-tag"] else []) ++
  (if f.cacheVary ≠ some false ∧ strTruthy (hGet r.headers "cache-vary")
   then ["cache-vary"] else [])

/-- utils.ts `parseResponseHeaders`, assembled from the pipeline above. -/
def parseResponseHeaders (r : ResponseRec) (c : CacheConfig) : ParsedCacheHeaders :=
  { shouldCache := shouldCacheFinalOf r c
    ttl := ttlFinalOf r c
    staleWhileRevalidate := swrParsedOf r c
    tags := tagsOf r c
    vary := varyParsedOf r c
    headersToRemove := headersToRemoveOf r c
    isPrivate := isPrivateOf r c
    noCache := noCacheOf r c
    noStore := noStoreOf r c
    etag := etagFieldOf r c
    lastModified := lastModifiedFieldOf r c
    shouldGenerateETag := shouldGenerateETagOf r c }

example :
    parseResponseHeaders
      { headers := [("cache-control", "max-age=3600, public"),
                    ("cache-tag", "user:123, api"),
                    ("cdn-cache-control", "max-age=7200")] } {} =
    { shouldCache := true, ttl := some 7200, tags := ["user:123", "api"],
      headersToRemove := ["cdn-cache-control", "cache-tag"] } := by
  decide

example :
    parseResponseHeaders { headers := [("cache-control", "no-store, max-age=60")] } {} =
    { shouldCache := false, ttl := some 60, noStore := true } := by
  decide

/-! ## Percent encoders -/

/-- Uppercase hex digit. -/
def hexDigit (n : Nat) : Char :=
  (List.getD "0123456789ABCDEF".data n '0')

/-- Lowercase hex digit. -/
def hexDigitLower (n : Nat) : Char :=
  (List.getD "0123456789abcdef".data n '0')

/-- UTF-8 byte sequence of a code point (as natural numbers). -/
def utf8Bytes (n : Nat) : List Nat :=
  if n < 128 then [n]
  else if n < 2048 then [192 + n / 64, 128 + n % 64]
  else if n < 65536 then [224 + n / 4096, 128 + (n / 64) % 64, 128 + n % 64]
  else [240 + n / 262144, 128 + (n / 4096) % 64, 128 + (n / 64) % 64, 128 + n % 64]

/-- `%HH` groups (uppercase) for a byte sequence. -/
def pctOfBytes (bs : List Nat) : List Char :=
  bs.flatMap (fun b => ['%', hexDigit (b / 16), hexDigit (b % 16)])

/-- Characters the `application/x-www-form-urlencoded` serializer leaves
as-is: ASCII alphanumerics and `*`, `-`, `.`, `_`. -/
def keptChar (c : Char) : Bool :=
  c.isAlphanum || c == '*' || c == '-' || c == '.' || c == '_'

/-- Form-urlencoding of one character: kept characters stay, space becomes
`+`, everything else is percent-encoded from its UTF-8 bytes. -/
def encChar (c : Char) : List Char :=
  if keptChar c then [c]
  else if c == ' ' then ['+']
  else pctOfBytes (utf8Bytes c.toNat)

/-- The `application/x-www-form-urlencoded` serialization of a string
(what `URLSearchParams.toString` applies to each name and value). -/
def formUrlEncode (s : String) : String :=
  String.mk (s.data.flatMap encChar)

/-- `URLSearchParams.toString()` over decoded name/value pairs. -/
def formEncodePairs (ps : List (String × String)) : String :=
  joinStr "&" (ps.map (fun p => formUrlEncode p.1 ++ "=" ++ formUrlEncode p.2))

/-- Characters `encodeURIComponent` leaves as-is. -/
def uriKeep (c : Char) : Bool :=
  c.isAlphanum || c == '-' || c == '_' || c == '.' || c == '!' || c == '~' ||
    c == '*' || c == Char.ofNat 39 || c == '(' || c == ')'

/-- JS `encodeURIComponent` (used for lock keys). -/
def encodeURIComponentModel (s : String) : String :=
  String.mk (s.data.flatMap (fun c =>
    if uriKeep c then [c] else pctOfBytes (utf8Bytes c.toNat)))

/-! ## Request / URL model and the cache key deriver (utils.ts) -/

/-- A parsed request URL: `origin`, `pathname` and the decoded query pairs
(in order of appearance), as exposed by the JS `URL` class. -/
structure UrlRec where
  origin : String
  pathname : String
  searchParams : List (String × String) := []
deriving DecidableEq, Repr

/-- A request as the engine sees it. -/
structure RequestRec where
  method : String := "GET"
  url : UrlRec
  headers : List (String × String) := []
deriving DecidableEq, Repr

/-- `URLSearchParams.get`: first value for the name, else `null`. -/
def spGet (ps : List (String × String)) (name : String) : Option String :=
  (ps.find? (fun p => p.1 == name)).map (fun p => p.2)

/-- `URLSearchParams.set`: replace the first occurrence (dropping later
duplicates) or append. -/
def uspSet : List (String × String) → String → String → List (String × String)
  | [], n, v => [(n, v)]
  | p :: rest, n, v =>
    if p.1 == n then (n, v) :: rest.filter (fun q => !(q.1 == n))
    else p :: uspSet rest n v

/-- Build a fresh `URLSearchParams` by `set`-ing each (sorted) vary query
name to its value in the request. -/
def uspBuild (names : List String) (f : String → String) : List (String × String) :=
  names.foldl (fun sk q => uspSet sk q (f q)) []

/-- The serialized form of a request URL (`request.url`): origin, pathname,
and `?`-prefixed query when non-empty. Query re-serialization uses the same
form-encoding the `URL` class applies. -/
def urlString (u : UrlRec) : String :=
  u.origin ++ u.pathname ++
    (if u.searchParams.length > 0 then "?" ++ formEncodePairs u.searchParams else "")

/-- utils.ts `getCookieValue`: split the `cookie` header on `;`, trim each
piece, compare the (trimmed) name before the first `=`; a piece without `=`
matches whole and yields `""`. -/
def getCookieValue (request : RequestRec) (cookieName : String) : Option String :=
  match hGet request.headers "cookie" with
  | none => none
  | some ch =>
    if ch = "" then none
    else
      (jsSplit ch ";").findSome? (fun cookie =>
        let trimmed := jsTrim cookie
        let parts := jsSplit trimmed "="
        if parts.length = 1 then
          if trimmed = cookieName then some "" else none
        else
          let name := jsTrim (parts.headD "")
          let value := jsTrim (joinStr "=" parts.tail)
          if name = cookieName then some value else none)

/-- The `?`-prefixed query fragment of a vary-qualified key
(`defaultGetCacheKey` lines 355-366). -/
def queryPartOf (request : RequestRec) (v : CacheVary) : String :=
  if v.query.length > 0 then
    let searchKey :=
      uspBuild (sortStrings v.query)
        (fun q => (spGet request.url.searchParams q).getD "")
    if searchKey.length > 0 then "?" ++ formEncodePairs searchKey else ""
  else ""

/-- The `h=...` vary segment (`defaultGetCacheKey` lines 368-377). -/
def headerSegOf (request : RequestRec) (v : CacheVary) : List String :=
  if v.headers.length > 0 then
    ["h=" ++ joinStr ","
      ((sortStrings v.headers).map (fun hn =>
        jsToLower hn ++ ":" ++ ((hGet request.headers hn).getD "")))]
  else []

/-- The `c=...` vary segment (`defaultGetCacheKey` lines 379-388). -/
def cookieSegOf (request : RequestRec) (v : CacheVary) : List String :=
  if v.cookies.length > 0 then
    ["c=" ++ joinStr ","
      ((sortStrings v.cookies).map (fun cn =>
        cn ++ ":" ++ ((getCookieValue request cn).getD "")))]
  else []

/-- utils.ts `defaultGetCacheKey`. -/
def defaultGetCacheKey (request : RequestRec) (vary : Option CacheVary) : String :=
  if request.method ≠ "GET" then
    "unsupported-method:" ++ request.method ++ ":" ++ urlString request.url
  else
    let base := request.url.origin ++ request.url.pathname
    match vary with
    | some v =>
      let key1 := base ++ queryPartOf request v
      let varyParts := headerSegOf request v ++ cookieSegOf request v
      if varyParts.length > 0 then key1 ++ "::" ++ joinStr "::" varyParts else key1
    | none =>
      let entries := sortBy (fun a b => strLtB a.1 b.1) request.url.searchParams
      if entries.length > 0 then base ++ "?" ++ formEncodePairs entries else base

example :
    defaultGetCacheKey
      { url := { origin := "https://api.example.com", pathname := "/users",
                 searchParams := [("page", "1")] }
        headers := [("accept-language", "en"), ("cookie", "theme=dark")] }
      (some ⟨["Accept-Language"], ["theme"], ["page"]⟩) =
    "https://api.example.com/users?page=1::h=accept-language:en::c=theme:dark" := by
  decide

example :
    defaultGetCacheKey
      { url := { origin := "https://e.com", pathname := "/p",
                 searchParams := [("b", "2"), ("a", "1")] } } none =
    "https://e.com/p?a=1&b=2" := by
  decide

/-! ## removeHeaders / isCacheValid / tag validation (utils.ts) -/

/-- utils.ts `removeHeaders`: a new response with the listed headers
deleted (case-insensitive); returns the response unchanged for an empty
list. -/
def removeHeaders (response : ResponseRec) (headersToRemove : List String) :
    ResponseRec :=
  if headersToRemove.length = 0 then response
  else
    { response with
      headers := response.headers.filter (fun p =>
        !(headersToRemove.any (fun h => jsToLower h == jsToLower p.1))) }

/-- The sanitization step of `validateCacheTag`: remove all control
characters (0-31) and DEL (127), then trim. -/
def sanitizeTag (tag : String) : String :=
  jsTrim (String.mk (tag.data.filter (fun c => !(c.toNat ≤ 31 || c.toNat = 127))))

/-- utils.ts `validateCacheTag`; `Except.error` models a thrown `Error`. -/
def validateCacheTag (tag : String) : Except String String :=
  if tag.length = 0 then .error "Cache tag cannot be empty"
  else if tag.length > 100 then .error "Cache tag too long (max 100 characters)"
  else
    let sanitized := sanitizeTag tag
    if sanitized.length = 0 then .error "Cache tag cannot be empty after sanitization"
    else if sanitized.data.any (fun c => c == '<' || c == '>' || c == '"') then
      .error "Cache tag contains invalid characters (<, >, \")"
    else .ok sanitized

/-- utils.ts `validateCacheTags` (the `Array.isArray` guard is vacuous in
the typed model). -/
def validateCacheTags (tags : List String) : Except String (List String) :=
  if tags.length > 100 then .error "Too many cache tags (max 100)"
  else tags.mapM validateCacheTag

/-! ## HTTP dates

JS `Date` parsing/formatting is modelled for the RFC-1123 `toUTCString`
format the engine itself writes (`"Thu, 01 Jan 1970 00:00:10 GMT"`); any
other string is an invalid date (`NaN`, modelled as `none`). -/

/-- Civil date from days since the Unix epoch (Howard Hinnant's algorithm,
floor division): `(year, month 1-12, day 1-31)`. -/
def civilFromDays (z0 : Int) : Int × Int × Int :=
  let z := z0 + 719468
  let era := Int.fdiv z 146097
  let doe := z - era * 146097
  let yoe := (doe - doe / 1460 + doe / 36524 - doe / 146096) / 365
  let y := yoe + era * 400
  let doy := doe - (365 * yoe + yoe / 4 - yoe / 100)
  let mp := (5 * doy + 2) / 153
  let d := doy - (153 * mp + 2) / 5 + 1
  let m := mp + (if mp < 10 then 3 else -9)
  (y + (if m ≤ 2 then 1 else 0), m, d)

/-- Days since the Unix epoch from a civil date (inverse of
`civilFromDays`). -/
def daysFromCivil (y0 m d : Int) : Int :=
  let y := y0 - (if m ≤ 2 then 1 else 0)
  let era := Int.fdiv y 400
  let yoe := y - era * 400
  let mp := m + (if m > 2 then -3 else 9)
  let doy := (153 * mp + 2) / 5 + d - 1
  let doe := yoe * 365 + yoe / 4 - yoe / 100 + doy
  era * 146097 + doe - 719468

def dayNames : List String := ["Sun", "Mon", "Tue", "Wed", "Thu", "Fri", "Sat"]

def monthNames : List String :=
  ["Jan", "Feb", "Mar", "Apr", "May", "Jun", "Jul", "Aug", "Sep", "Oct", "Nov", "Dec"]

/-- Decimal digits of a natural number (fuel-driven so it kernel-reduces). -/
def natDigitsFuel : Nat → Nat → List Char
  | 0, _ => []
  | fuel + 1, n =>
    if n < 10 then [Char.ofNat (48 + n)]
    else natDigitsFuel fuel (n / 10) ++ [Char.ofNat (48 + n % 10)]

/-- Decimal rendering of a natural number. -/
def natToStr (n : Nat) : String := String.mk (natDigitsFuel (n + 1) n)

/-- Two-digit zero-padded rendering. -/
def pad2 (n : Nat) : String :=
  if n < 10 then "0" ++ natToStr n else natToStr n

/-- JS `Date.prototype.toUTCString` for a millisecond timestamp. -/
def formatHttpDate (ms : Int) : String :=
  let days := Int.fdiv ms 86400000
  let msOfDay := (ms - days * 86400000).toNat
  let (y, m, d) := civilFromDays days
  let wd := ((days + 4).emod 7).toNat
  let hh := msOfDay / 3600000
  let mi := (msOfDay / 60000) % 60
  let ss := (msOfDay / 1000) % 60
  (dayNames.getD wd "") ++ ", " ++ pad2 d.toNat ++ " " ++
    (monthNames.getD (m.toNat - 1) "") ++ " " ++ natToStr y.toNat ++ " " ++
    pad2 hh ++ ":" ++ pad2 mi ++ ":" ++ pad2 ss ++ " GMT"

/-- Parse a fixed-width all-digit field. -/
def fixedNat? (s : String) (w : Nat) : Option Nat :=
  if s.length = w then digitsNat? s.data else none

/-- JS `new Date(s).getTime()` (`none` = `NaN`), modelled for the RFC-1123
format `formatHttpDate` produces. -/
def parseHttpDateMs (s : String) : Option Int :=
  match jsSplit s " " with
  | [wd, dd, mon, yyyy, hms, tz] =>
    if tz = "GMT" ∧ dayNames.any (fun d => d ++ "," == wd) then
      match fixedNat? dd 2, monthNames.findIdx? (fun m => m == mon),
          fixedNat? yyyy 4, jsSplit hms ":" with
      | some d, some mIdx, some y, [hh, mm, ss] =>
        match fixedNat? hh 2, fixedNat? mm 2, fixedNat? ss 2 with
        | some h, some mi, some sec =>
          if 1 ≤ d ∧ d ≤ 31 ∧ h < 24 ∧ mi < 60 ∧ sec < 60 then
            some (daysFromCivil (Int.ofNat y) (Int.ofNat (mIdx + 1)) (Int.ofNat d) * 86400000 +
              ((h * 3600 + mi * 60 + sec : Nat) : Int) * 1000)
          else none
        | _, _, _ => none
      | _, _, _, _ => none
    else none
  | _ => none

example : formatHttpDate 10000 = "Thu, 01 Jan 1970 00:00:10 GMT" := by decide

example : parseHttpDateMs "Thu, 01 Jan 1970 00:00:10 GMT" = some 10000 := by decide

example : parseHttpDateMs "invalid-date" = none := by decide

example : formatHttpDate 1600000000000 = "Sun, 13 Sep 2020 12:26:40 GMT" := by decide

example : parseHttpDateMs (formatHttpDate 1600000060000) = some 1600000060000 := by
  decide

/-- utils.ts `isCacheValid`: an absent, empty or unparseable `expires`
header never expires; otherwise compare against the current time. -/
def isCacheValid (expiresHeader : Option String) (now : Int) : Bool :=
  match expiresHeader with
  | none => true
  | some s =>
    if s = "" then true
    else
      match parseHttpDateMs s with
      | none => true
      | some t => now < t

/-! ## Conditional requests (conditional.ts) -/

/-- `Headers.has`, case-insensitive. -/
def hHas (hs : List (String × String)) (name : String) : Bool :=
  (hGet hs name).isSome

/-- The regex `^"|"$` replacement of `parseETag`: drop one leading and one
trailing double quote. -/
def stripDQuotes (s : String) : String :=
  let l1 : List Char :=
    match s.data with
    | [] => []
    | c :: rest => if c == '"' then rest else c :: rest
  let l2 : List Char :=
    match l1.getLast? with
    | some c => if c == '"' then l1.dropLast else l1
    | none => l1
  String.mk l2

/-- conditional.ts `parseETag`: `(value, weak)`. -/
def parseETag (etag : String) : String × Bool :=
  if etag = "" then ("", false)
  else
    let trimmed := jsTrim etag
    match stripPfx? ['W', '/'] trimmed.data with
    | some rest => (stripDQuotes (String.mk rest), true)
    | none => (stripDQuotes trimmed, false)

/-- conditional.ts `compareETags`. -/
def compareETags (etag1 etag2 : String) (weakComparison : Bool) : Bool :=
  if etag1 = "" || etag2 = "" then false
  else
    let p1 := parseETag etag1
    let p2 := parseETag etag2
    if !weakComparison && (p1.2 || p2.2) then false
    else p1.1 == p2.1

/-- The parsed `If-None-Match` header: the wildcard or a token list. -/
inductive IfNoneMatch where
  | wildcard
  | etags (l : List String)
deriving DecidableEq, Repr

/-- conditional.ts `parseIfNoneMatch`. -/
def parseIfNoneMatch (headerValue : String) : IfNoneMatch :=
  if headerValue = "" then .etags []
  else
    let trimmed := jsTrim headerValue
    if trimmed = "*" then .wildcard
    else .etags (((jsSplit trimmed ",").map jsTrim).filter (fun e => e.length > 0))

/-- Which validator matched. -/
inductive MatchedValidator where
  | etag
  | lastModified
deriving DecidableEq, Repr

/-- conditional.ts `ConditionalValidationResult` (its `matches` field is
`isMatch` here, `matches` being reserved in Lean). -/
structure ConditionalValidationResult where
  isMatch : Bool
  shouldReturn304 : Bool
  matchedValidator : Option MatchedValidator := none
deriving DecidableEq, Repr

/-- conditional.ts `getDefaultConditionalConfig`. -/
def getDefaultConditionalConfig : ConditionalRequestConfig :=
  { etag := some .tt, lastModified := some true, weakValidation := some true }

/-- conditional.ts `validateConditionalRequest`. -/
def validateConditionalRequest (request : RequestRec) (cachedResponse : ResponseRec)
    (config : ConditionalRequestConfig) : ConditionalValidationResult :=
  let ifNoneMatch := hGet request.headers "if-none-match"
  let ifModifiedSince := hGet request.headers "if-modified-since"
  if !strTruthy ifNoneMatch && !strTruthy ifModifiedSince then
    { isMatch := false, shouldReturn304 := false }
  else
    let em :=
      if strTruthy ifNoneMatch ∧ config.etag ≠ some .ff then
        match hGet cachedResponse.headers "etag" with
        | some cachedETag =>
          if cachedETag ≠ "" then
            match parseIfNoneMatch ((ifNoneMatch).getD "") with
            | .wildcard => true
            | .etags l =>
              let useWeakComparison := config.weakValidation ≠ some false
              l.any (fun requestETag => compareETags cachedETag requestETag useWeakComparison)
          else false
        | none => false
      else false
    let mv1 : Option MatchedValidator := if em then some .etag else none
    let lm :=
      if strTruthy ifModifiedSince ∧ config.lastModified ≠ some false ∧ em = false then
        match hGet cachedResponse.headers "last-modified" with
        | some cachedLastModified =>
          if cachedLastModified ≠ "" then
            match parseHttpDateMs ((ifModifiedSince).getD ""),
                parseHttpDateMs cachedLastModified with
            | some requestDate, some cachedDate => cachedDate ≤ requestDate
            | _, _ => false
          else false
        | none => false
      else false
    let mv := if lm ∧ mv1 = none then some .lastModified else mv1
    { isMatch := em || lm, shouldReturn304 := em || lm, matchedValidator := mv }

/-- conditional.ts `create304Response`: body-less 304 carrying only the
required/allowed headers, synthesizing `date` if absent. -/
def create304Response (cachedResponse : ResponseRec) (now : Int) : ResponseRec :=
  let requiredHeaders :=
    ["cache-control", "content-location", "date", "etag", "expires",
     "last-modified", "vary"]
  let optionalHeaders := ["server", "content-encoding", "content-language", "content-type"]
  let headers0 :=
    (requiredHeaders ++ optionalHeaders).foldl
      (fun hs headerName =>
        match hGet cachedResponse.headers headerName with
        | some v => if v ≠ "" then hSet hs headerName v else hs
        | none => hs)
      []
  let headers1 := if hHas headers0 "date" then headers0 else hSet headers0 "date" (formatHttpDate now)
  { status := 304, statusText := "Not Modified", headers := headers1, body := none }

/-- From the source: `generateETag` hashes the response body with SHA-1 and
formats it as a quoted strong validator. No claim depends on the digest
value, so the SHA-1 digest is modelled as the (injective) hex dump of the
body bytes. -/
def generateETag (response : ResponseRec) : String :=
  "\"" ++ String.mk ((String.toUTF8 ((response.body).getD "")).toList.flatMap
    (fun b => [hexDigitLower (b.toNat / 16), hexDigitLower (b.toNat % 16)])) ++ "\""

example :
    (validateConditionalRequest
      { url := { origin := "https://e.com", pathname := "/" },
        headers := [("if-none-match", "\"abc\"")] }
      { headers := [("etag", "\"abc\"")] }
      getDefaultConditionalConfig).shouldReturn304 = true := by decide

example :
    (validateConditionalRequest
      { url := { origin := "https://e.com", pathname := "/" },
        headers := [("if-none-match", "*")] }
      { headers := [("content-type", "text/plain")] }
      getDefaultConditionalConfig).shouldReturn304 = false := by decide

/-! ## The store model

The external store (a platform `Cache`) maps opaque string keys to stored
responses. The engine keeps its two metadata indices and its advisory locks
as ordinary entries of the same store at reserved `https://cache-internal/`
keys; their JSON round-trip through `Response` bodies is the identity on the
typed records, so stored values are modelled as a tagged union. A stored
value of the wrong shape at a metadata key behaves like corrupt JSON: the
reader falls back to its default. -/

/-- A vary-index record: the spread `{...varyData, timestamp}`. -/
structure VaryEntry where
  vary : CacheVary
  timestamp : Int
deriving DecidableEq, Repr

/-- A value stored in the cache. -/
inductive StoredVal where
  | resp (r : ResponseRec)
  | tagMeta (m : List (String × List String))
  | varyMeta (m : List (String × VaryEntry))
  | lockVal (timestamp : Int)
deriving DecidableEq, Repr

/-- The store: an association list from keys to stored values. -/
abbrev Store := List (String × StoredVal)

/-- `cache.delete(key)`: whether the key existed, and the new store. -/
def storeDelete (s : Store) (k : String) : Bool × Store :=
  (s.any (fun p => p.1 == k), recDelete s k)

def METADATA_KEY : String := "https://cache-internal/cache-primitives-metadata"

def VARY_METADATA_KEY : String := "https://cache-internal/cache-vary-metadata"

def lockKeyBase : String := "https://cache-internal/lock-"

def METADATA_LOCK_TIMEOUT : Int := 5000

def MAX_RETRY_ATTEMPTS : Nat := 5

def RETRY_BASE_DELAY : Int := 10

/-- `safeJsonParse` of the tag index at a key: default `{}` when the entry
is absent or not a tag-index record. -/
def tagMetaAt (s : Store) (k : String) : List (String × List String) :=
  match recGet s k with
  | some (.tagMeta m) => m
  | _ => []

/-- `safeJsonParse` of the vary index at a key. -/
def varyMetaAt (s : Store) (k : String) : List (String × VaryEntry) :=
  match recGet s k with
  | some (.varyMeta m) => m
  | _ => []

/-! ## Atomic metadata updates (metadata.ts) -/

/-- metadata.ts `tryAcquireLock` over the store at a fixed instant `now`:
an absent lock, or one older than `METADATA_LOCK_TIMEOUT`, is (re)taken by
writing a fresh lock record; a live lock reports failure. A non-lock value
at the lock key has an `undefined` timestamp, whose NaN age comparison is
false, so the lock is treated as expired. -/
def tryAcquireLock (store : Store) (lockKey : String) (now : Int) : Bool × Store :=
  match recGet store lockKey with
  | some (.lockVal ts) =>
    if now - ts < METADATA_LOCK_TIMEOUT then (false, store)
    else (true, recSet store lockKey (.lockVal now))
  | some _ => (true, recSet store lockKey (.lockVal now))
  | none => (true, recSet store lockKey (.lockVal now))

/-- The outcome of `atomicMetadataUpdate`: the (possibly thrown-out-of)
store, the backoff sleeps performed, and how often the caller's update
function ran. `outcome = .error e` models the function throwing. -/
structure AmuResult where
  outcome : Except String Unit
  store : Store
  sleeps : List Int
  updateCalls : Nat
deriving Repr

/-- The `while (attempt < maxRetries)` loop of `atomicMetadataUpdate`,
structurally recursive in the number of remaining attempts. On a failed
acquire it sleeps `RETRY_BASE_DELAY * 2 ^ attempt` ms (time advances by the
sleep) and retries; on success it reads the index (defaulting on absence or
corruption), applies `updateFn` once, writes the result back and always
releases the lock. Falling out of the loop throws. -/
def amuLoop {α : Type} (parse : StoredVal → Option α) (inj : α → StoredVal)
    (metadataKey lockKey : String) (updateFn : α → α) (defaultValue : α) :
    Nat → Nat → Store → Int → AmuResult
  | 0, maxRetries, store, _ =>
    ⟨.error ("Failed to acquire lock for metadata update after " ++
      natToStr maxRetries ++ " attempts"), store, [], 0⟩
  | remaining + 1, maxRetries, store, now =>
    let acq := tryAcquireLock store lockKey now
    if acq.1 then
      let current : α :=
        match recGet acq.2 metadataKey with
        | some v => (parse v).getD defaultValue
        | none => defaultValue
      let updatedData := updateFn current
      let store2 := recSet acq.2 metadataKey (inj updatedData)
      let store3 := recDelete store2 lockKey
      ⟨.ok (), store3, [], 1⟩
    else
      let attempt := maxRetries - (remaining + 1)
      let delay := RETRY_BASE_DELAY * 2 ^ attempt
      let rest := amuLoop parse inj metadataKey lockKey updateFn defaultValue
        remaining maxRetries acq.2 (now + delay)
      { rest with sleeps := delay :: rest.sleeps }

/-- metadata.ts `atomicMetadataUpdate` (sequential semantics: the store is
threaded through; `now` is the clock at entry and advances by each backoff
sleep). -/
def atomicMetadataUpdate {α : Type} (parse : StoredVal → Option α)
    (inj : α → StoredVal) (store : Store) (metadataKey : String)
    (updateFn : α → α) (defaultValue : α) (now : Int)
    (maxRetries : Nat := MAX_RETRY_ATTEMPTS) : AmuResult :=
  let lockKey := lockKeyBase ++ encodeURIComponentModel metadataKey
  amuLoop parse inj metadataKey lockKey updateFn defaultValue maxRetries maxRetries store now

/-- The pure update function of `updateTagMetadata`: ensure each tag's key
list exists and contains `cacheKey` (no duplicates). -/
def tagUpdateFn (tags : List String) (cacheKey : String)
    (metadata : List (String × List String)) : List (String × List String) :=
  tags.foldl
    (fun md tag =>
      match recGet md tag with
      | none => recSet md tag [cacheKey]
      | some l => if l.contains cacheKey then md else recSet md tag (l ++ [cacheKey]))
    metadata

/-- metadata.ts `updateTagMetadata`. -/
def updateTagMetadata (store : Store) (metadataKey : String) (tags : List String)
    (cacheKey : String) (now : Int) : AmuResult :=
  atomicMetadataUpdate
    (fun v => match v with | .tagMeta m => some m | _ => none) .tagMeta
    store metadataKey (tagUpdateFn tags cacheKey) [] now

/-- The pure update function of `updateVaryMetadata`: upsert the URL's rule
with the current timestamp; above `maxEntries` keep only the newest entries
by timestamp (stable ascending sort, keep the suffix — `slice(-maxEntries)`). -/
def varyUpdateFn (requestUrl : String) (varyData : CacheVary) (now : Int)
    (maxEntries : Nat) (metadata : List (String × VaryEntry)) :
    List (String × VaryEntry) :=
  let md1 := recSet metadata requestUrl ⟨varyData, now⟩
  if md1.length > maxEntries then
    let sorted := sortBy (fun a b => a.2.timestamp < b.2.timestamp) md1
    sorted.drop (sorted.length - maxEntries)
  else md1

/-- metadata.ts `updateVaryMetadata`. -/
def updateVaryMetadata (store : Store) (metadataKey requestUrl : String)
    (varyData : CacheVary) (now : Int) (maxEntries : Nat := 1000) : AmuResult :=
  atomicMetadataUpdate
    (fun v => match v with | .varyMeta m => some m | _ => none) .varyMeta
    store metadataKey (varyUpdateFn requestUrl varyData now maxEntries) [] now

/-! ## Read path (read.ts, src/unnamed/part_008) -/

/-- The freshness classification of the read-path state machine. -/
inductive FreshState where
  | fresh
  | staleInWindow
  | expired
deriving DecidableEq, Repr

/-- The entry's `stale-while-revalidate` window, read from its own truthy
`cache-control` header. -/
def swrSecondsOf (r : ResponseRec) : Option Int :=
  match hGet r.headers "cache-control" with
  | some cc =>
    if cc ≠ "" then numAt (parseCacheControl cc) "stale-while-revalidate" else none
  | none => none

/-- read.ts freshness decision for a cached entry: no truthy `expires`
header or an unparseable one (`NaN`) is fresh; `now < expiresAt` is fresh;
a truthy SWR window with `now < expiresAt + swr*1000` is stale-in-window;
anything else is expired. -/
def classifyFreshness (r : ResponseRec) (now : Int) : FreshState :=
  match hGet r.headers "expires" with
  | some expiresHeader =>
    if expiresHeader = "" then .fresh
    else
      match parseHttpDateMs expiresHeader with
      | some expiresAt =>
        if now ≥ expiresAt then
          match swrSecondsOf r with
          | some s =>
            if s ≠ 0 ∧ now < expiresAt + s * 1000 then .staleInWindow else .expired
          | none => .expired
        else .fresh
      | none => .fresh
  | none => .fresh

/-- The vary rule the read path resolves for a request from the vary index
(`varyMetadata[request.url]`). -/
def resolveVary (store : Store) (request : RequestRec) : Option CacheVary :=
  (recGet (varyMetaAt store VARY_METADATA_KEY) (urlString request.url)).map VaryEntry.vary

/-- The cache key the read path derives for a request. -/
def readKey (store : Store) (request : RequestRec) : String :=
  defaultGetCacheKey request (resolveVary store request)

/-- The conditional config the read path uses when the feature is on:
the object form, or `getDefaultConditionalConfig()`. -/
def effectiveCondConfig (features : CacheFeatures) : ConditionalRequestConfig :=
  match features.conditionalRequests with
  | .cfg c => c
  | _ => getDefaultConditionalConfig

/-- The result of `readFromCache`, with the store threaded through. -/
structure ReadResult where
  cached : Option ResponseRec
  needsBackgroundRevalidation : Bool
  store : Store
deriving Repr

/-- read.ts `readFromCache`: resolve the vary rule, derive the key, look up
the entry, classify freshness (deleting an expired entry), then run
conditional validation, a 304 outcome replacing the entry and suppressing
the revalidation signal. -/
def readFromCache (request : RequestRec) (config : CacheConfig) (store : Store)
    (now : Int) : ReadResult :=
  if request.method ≠ "GET" then ⟨none, false, store⟩
  else
    let cacheKey := readKey store request
    match recGet store cacheKey with
    | some (.resp r) =>
      match classifyFreshness r now with
      | .expired => ⟨none, false, recDelete store cacheKey⟩
      | fs =>
        let nbr := fs == .staleInWindow
        let features := featuresOf config
        if features.conditionalRequests ≠ .disabled then
          let validation := validateConditionalRequest request r (effectiveCondConfig features)
          if validation.shouldReturn304 then
            ⟨some (create304Response r now), false, store⟩
          else ⟨some r, nbr, store⟩
        else ⟨some r, nbr, store⟩
    | _ => ⟨none, false, store⟩

/-! ## Write path (write.ts, src/unnamed/part_009) -/

/-- The result of `writeToCache`: the response handed back to the caller
and the store. `.error` models a thrown tag-validation error. -/
structure WriteResult where
  response : ResponseRec
  store : Store
deriving Repr

/-- write.ts `writeToCache`: parse the response headers; when not cacheable
return the stripped response unchanged; otherwise derive the key from the
decision's vary rule, stamp `etag` (when generation is on), `expires` and
the validated `cache-tag` header onto the stored copy, `put` it, update the
tag and vary indices, and return the stripped original. -/
def writeToCache (request : RequestRec) (response : ResponseRec)
    (config : CacheConfig) (store : Store) (now : Int) :
    Except String WriteResult :=
  if request.method ≠ "GET" then .ok ⟨response, store⟩
  else
    let cacheInfo := parseResponseHeaders response config
    if !cacheInfo.shouldCache then
      .ok ⟨removeHeaders response cacheInfo.headersToRemove, store⟩
    else
      let cacheKey := defaultGetCacheKey request cacheInfo.vary
      let headers0 := response.headers
      let headers1 :=
        if cacheInfo.shouldGenerateETag then hSet headers0 "etag" (generateETag response)
        else headers0
      let headers2 :=
        match cacheInfo.ttl with
        | some t =>
          if t ≠ 0 then hSet headers1 "expires" (formatHttpDate (now + t * 1000))
          else headers1
        | none => headers1
      match (if cacheInfo.tags.length > 0 then validateCacheTags cacheInfo.tags
             else .ok []) with
      | .error e => .error e
      | .ok validatedTags =>
        let headers3 :=
          if cacheInfo.tags.length > 0 then
            hSet headers2 "cache-tag" (joinStr ", " validatedTags)
          else headers2
        let cacheResponse : ResponseRec := { response with headers := headers3 }
        let store1 := recSet store cacheKey (.resp cacheResponse)
        let afterTags : Except String Store :=
          if cacheInfo.tags.length > 0 then
            let r := updateTagMetadata store1 METADATA_KEY validatedTags cacheKey now
            match r.outcome with
            | .ok _ => .ok r.store
            | .error e => .error e
          else .ok store1
        match afterTags with
        | .error e => .error e
        | .ok store2 =>
          match cacheInfo.vary with
          | some v =>
            let r := updateVaryMetadata store2 VARY_METADATA_KEY (urlString request.url) v now
            match r.outcome with
            | .ok _ =>
              .ok ⟨removeHeaders response cacheInfo.headersToRemove, r.store⟩
            | .error e => .error e
          | none => .ok ⟨removeHeaders response cacheInfo.headersToRemove, store2⟩

/-! ## Invalidation (invalidation.ts, src/unnamed/part_010) -/

/-- invalidation.ts `invalidateByTag`: validate the tag, read the tag index
(default `{}` on absence or corruption), delete every key listed under the
tag counting those that existed, then remove the tag's entry from the index
(only when the index record existed and had the tag) and write it back. -/
def invalidateByTag (tag : String) (store : Store) : Except String (Nat × Store) :=
  match validateCacheTag tag with
  | .error e => .error e
  | .ok validatedTag =>
    let metadataResponse := recGet store METADATA_KEY
    let metadata :=
      match metadataResponse with
      | some (.tagMeta m) => m
      | _ => []
    let keysToDelete := (recGet metadata validatedTag).getD []
    let del := keysToDelete.foldl
      (fun (acc : Nat × Store) key =>
        let d := storeDelete acc.2 key
        (acc.1 + (if d.1 then 1 else 0), d.2))
      (0, store)
    let store2 :=
      if metadataResponse.isSome ∧ (recGet metadata validatedTag).isSome then
        recSet del.2 METADATA_KEY (.tagMeta (recDelete metadata validatedTag))
      else del.2
    .ok (del.1, store2)

/-! ## Derived notions used by the theorems -/

/-- Total backoff slept by attempts `attempt, attempt+1, ..., attempt+k-1`
(`RETRY_BASE_DELAY * 2 ^ i` each). -/
def backoffTotal : Nat → Nat → Int
  | _, 0 => 0
  | attempt, k + 1 => RETRY_BASE_DELAY * 2 ^ attempt + backoffTotal (attempt + 1) k

/-- The read path's SWR-window test for an entry whose expiry is `t`:
a truthy `stale-while-revalidate` directive with `now < t + swr*1000`. -/
def inSwrWindow (entry : ResponseRec) (t now : Int) : Bool :=
  match swrSecondsOf entry with
  | some s => s ≠ 0 && now < t + s * 1000
  | none => false

/-- `joinStr` at the character-list level. -/
def joinSep (sep : List Char) : List (List Char) → List Char
  | [] => []
  | [x] => x
  | x :: y :: xs => x ++ sep ++ joinSep sep (y :: xs)

/-- First occurrences of a string list, skipping an avoid-set: the shape
`URLSearchParams.set`-folding produces. -/
def dedupAvoid (avoid : List String) : List String → List String
  | [] => []
  | n :: rest =>
    if n ∈ avoid then dedupAvoid avoid rest
    else n :: dedupAvoid (n :: avoid) rest

/-! ## Concrete scenario inputs -/

/-- C1: a `max-age=0` response. -/
def c1Resp : ResponseRec := { headers := [("cache-control", "max-age=0")] }

/-- C1: a configuration with a default TTL. -/
def c1Cfg : CacheConfig := { defaultTtl := some 60 }

/-- C1: a GET request for the counterexample write. -/
def c1Req : RequestRec := { url := { origin := "https://example.com", pathname := "/c1" } }

/-- C2 scenario: GET `/a`. -/
def c2ReqA : RequestRec := { url := { origin := "https://example.com", pathname := "/a" } }

/-- C2 scenario: response tagged `x`. -/
def c2RespA : ResponseRec := { headers := [("cache-control", "max-age=60"), ("cache-tag", "x")] }

/-- C2 scenario: GET `/b`. -/
def c2ReqB : RequestRec := { url := { origin := "https://example.com", pathname := "/b" } }

/-- C2 scenario: response tagged `x, y`. -/
def c2RespB : ResponseRec := { headers := [("cache-control", "max-age=60"), ("cache-tag", "x, y")] }

/-- C2 scenario: write both responses into an empty store, then invalidate
tag `x`. -/
def c2Run : Except String (Nat × Store) :=
  (writeToCache c2ReqA c2RespA {} [] 0).bind (fun w1 =>
    (writeToCache c2ReqB c2RespB {} w1.store 0).bind (fun w2 =>
      invalidateByTag "x" w2.store))

/-- C5/C6: a stale-but-within-SWR-window entry carrying an ETag
(expires at 10000ms, SWR window 300s). -/
def c5Entry : ResponseRec :=
  { headers := [("cache-control", "max-age=10, stale-while-revalidate=300"),
                ("expires", "Thu, 01 Jan 1970 00:00:10 GMT"),
                ("etag", "\"abc\"")] }

/-- C5/C6: a store holding only that entry under the bare GET key. -/
def c5Store : Store := [("https://example.com/c5", .resp c5Entry)]

/-- C5/C6: a conditional request whose `if-none-match` matches the entry. -/
def c5Req : RequestRec :=
  { url := { origin := "https://example.com", pathname := "/c5" },
    headers := [("if-none-match", "\"abc\"")] }

/-- C5 witness: the same lookup without conditional headers. -/
def c5ReqPlain : RequestRec := { url := { origin := "https://example.com", pathname := "/c5" } }

/-- C8: an entry with no ETag header. -/
def c8Entry : ResponseRec := { headers := [("content-type", "text/plain")] }

/-- C8: a wildcard conditional request. -/
def c8Req : RequestRec :=
  { url := { origin := "https://example.com", pathname := "/c8" },
    headers := [("if-none-match", "*")] }

/-- C8 witness: an entry carrying an ETag. -/
def c8EntryTagged : ResponseRec := { headers := [("etag", "\"v1\"")] }

/-- C9: an entry whose `expires` header does not parse as a date. -/
def c9Entry : ResponseRec :=
  { headers := [("expires", "invalid-date"), ("content-type", "text/plain")] }

/-- C9: a store holding that entry under the bare GET key. -/
def c9Store : Store := [("https://example.com/c9", .resp c9Entry)]

/-- C9: a plain GET for it. -/
def c9Req : RequestRec := { url := { origin := "https://example.com", pathname := "/c9" } }

/-- C3: a GET whose vary rule covers header `a` (value `1`). -/
def c3Req1 : RequestRec :=
  { url := { origin := "https://e.com", pathname := "/x" }, headers := [("a", "1")] }

/-- C3: a GET for the crafted path `/x::h=a:1` with no vary rule. -/
def c3Req2 : RequestRec :=
  { url := { origin := "https://e.com", pathname := "/x::h=a:1" } }

/-- C7: the lock key guarding the tag index. -/
def c7LockKey : String := lockKeyBase ++ encodeURIComponentModel METADATA_KEY

/-- C7: a store whose tag-index lock is held (timestamp 0). -/
def c7Store : Store := [(c7LockKey, .lockVal 0)]

deriving instance DecidableEq for Except

/-- C2: the store left after the scenario (asserted by `C2_amended`). -/
def c2After : Store := [(METADATA_KEY, .tagMeta [("y", ["https://example.com/b"])])]

/-- C3: requests that differ only in the (present) value of a header listed
in the vary rule: same URL, equal values for every other listed header
(case-insensitively) and for every listed cookie. -/
def DiffersInVariedHeader (r1 r2 : RequestRec) (v : CacheVary) : Prop :=
  ∃ hname v1 v2,
    r1.url = r2.url ∧
    hname ∈ v.headers ∧
    hGet r1.headers hname = some v1 ∧ hGet r2.headers hname = some v2 ∧ v1 ≠ v2 ∧
    (∀ hn ∈ v.headers, jsToLower hn ≠ jsToLower hname →
      hGet r1.headers hn = hGet r2.headers hn) ∧
    (∀ cn ∈ v.cookies, getCookieValue r1 cn = getCookieValue r2 cn)

/-- C3: requests that differ only in the (present) value of a listed cookie. -/
def DiffersInVariedCookie (r1 r2 : RequestRec) (v : CacheVary) : Prop :=
  ∃ cname v1 v2,
    r1.url = r2.url ∧
    cname ∈ v.cookies ∧
    getCookieValue r1 cname = some v1 ∧ getCookieValue r2 cname = some v2 ∧ v1 ≠ v2 ∧
    (∀ cn ∈ v.cookies, cn ≠ cname → getCookieValue r1 cn = getCookieValue r2 cn) ∧
    (∀ hn ∈ v.headers, hGet r1.headers hn = hGet r2.headers hn)

/-- C3: requests that differ only in the (present) value of a listed query
parameter. -/
def DiffersInVariedQuery (r1 r2 : RequestRec) (v : CacheVary) : Prop :=
  ∃ qname v1 v2,
    r1.url.origin = r2.url.origin ∧
    r1.url.pathname = r2.url.pathname ∧
    r1.headers = r2.headers ∧
    qname ∈ v.query ∧
    spGet r1.url.searchParams qname = some v1 ∧
    spGet r2.url.searchParams qname = some v2 ∧ v1 ≠ v2 ∧
    (∀ qn ∈ v.query, qn ≠ qname →
      spGet r1.url.searchParams qn = spGet r2.url.searchParams qn)
/-- C3 witness: like `c3Req1` but with header `a: 2`. -/
def c3Req1b : RequestRec :=
  { url := { origin := "https://e.com", pathname := "/x" }, headers := [("a", "2")] }

/-! ## Lemmas about the header-interpreter pipeline -/

lemma shouldCacheFinal_true_elim (r : ResponseRec) (c : CacheConfig)
    (h : shouldCacheFinalOf r c = true) :
    shouldCache0Of r c = true ∧ ttlBad (ttlWithDefaultOf r c) = false := by
  unfold shouldCacheFinalOf at h
  cases hb : ttlBad (ttlWithDefaultOf r c) with
  | true => rw [hb] at h; simp at h
  | false => rw [hb] at h; simp at h; exact ⟨h, rfl⟩

lemma shouldCache0_flags (r : ResponseRec) (c : CacheConfig)
    (h : shouldCache0Of r c = true) :
    isPrivateOf r c = false ∧ noCacheOf r c = false ∧ noStoreOf r c = false := by
  unfold shouldCache0Of at h
  simp only [Bool.and_eq_true, Bool.not_eq_true'] at h
  exact ⟨h.1.1.2, h.1.2, h.2⟩

/-- C4 counterexample input facts as a lemma shape; see `C4_counterexample`. -/
lemma ttlBad_some_pos (t : Int) (h : 0 < t) : ttlBad (some t) = false := by
  simp [ttlBad]; omega

/-- The claim's invariant, corrected: it needs the configured `maxTtl` (when
set) to be positive, because a negative `maxTtl` clamps the TTL below zero
after the `shouldCache` decision was already made. -/
theorem C4_amended (r : ResponseRec) (c : CacheConfig)
    (hmax : ∀ m, c.maxTtl = some m → 0 < m)
    (hbad : ((parseResponseHeaders r c).isPrivate || (parseResponseHeaders r c).noCache ||
        (parseResponseHeaders r c).noStore || ttlBad (parseResponseHeaders r c).ttl) = true) :
    (parseResponseHeaders r c).shouldCache = false := by
  simp only [parseResponseHeaders] at hbad ⊢
  cases hsc : shouldCacheFinalOf r c with
  | false => rfl
  | true =>
    exfalso
    obtain ⟨h0, hb⟩ := shouldCacheFinal_true_elim r c hsc
    obtain ⟨hp, hnc, hns⟩ := shouldCache0_flags r c h0
    obtain ⟨t, ht, htpos⟩ : ∃ t, ttlWithDefaultOf r c = some t ∧ 0 < t := by
      cases hw : ttlWithDefaultOf r c with
      | none => rw [hw] at hb; simp [ttlBad] at hb
      | some t =>
        rw [hw] at hb
        simp only [ttlBad, decide_eq_false_iff_not] at hb
        exact ⟨t, rfl, by omega⟩
    have hfin : ttlBad (ttlFinalOf r c) = false := by
      unfold ttlFinalOf
      rw [ht]
      cases hm : c.maxTtl with
      | none => exact ttlBad_some_pos t htpos
      | some m =>
        have hmp := hmax m hm
        show ttlBad (if t ≠ 0 ∧ m ≠ 0 ∧ m < t then some m else some t) = false
        by_cases hcond : t ≠ 0 ∧ m ≠ 0 ∧ m < t
        · rw [if_pos hcond]; exact ttlBad_some_pos m hmp
        · rw [if_neg hcond]; exact ttlBad_some_pos t htpos
    rw [hp, hnc, hns, hfin] at hbad
    simp at hbad

/-- C4 counterexample: with `maxTtl = -1` configured, a `max-age=60`
response ends with `shouldCache = true` and final `ttl = -1 ≤ 0`, violating
the claimed invariant. -/
theorem C4_counterexample :
    (parseResponseHeaders { headers := [("cache-control", "max-age=60")] }
      { maxTtl := some (-1) }).shouldCache = true ∧
    (parseResponseHeaders { headers := [("cache-control", "max-age=60")] }
      { maxTtl := some (-1) }).ttl = some (-1) := by decide

/-- C4 witness: a `private` response is not cached under the default
configuration. -/
theorem C4_witness :
    (parseResponseHeaders { headers := [("cache-control", "private, max-age=60")] }
      {}).shouldCache = false :=
  C4_amended _ {} (fun _ h => nomatch h) (by decide)

/-- C1, corrected: a winning directive with `private` or `no-store` is never
persisted for any configuration; `max-age=0` prevents persistence only when
no truthy `defaultTtl` is configured (a configured default TTL overrides a
falsy parsed TTL, `0` included). -/
theorem C1_amended (resp : ResponseRec) (cfg : CacheConfig)
    (hd : truthyAt (ccDirectivesOf resp cfg) "private" = true ∨
          truthyAt (ccDirectivesOf resp cfg) "no-store" = true ∨
          (ttlParsedOf resp cfg = some 0 ∧ optIntTruthy cfg.defaultTtl = false)) :
    (parseResponseHeaders resp cfg).shouldCache = false ∧
    ∀ (req : RequestRec) (store : Store) (now : Int),
      ∃ rsp, writeToCache req resp cfg store now = Except.ok ⟨rsp, store⟩ := by
  have hsc : (parseResponseHeaders resp cfg).shouldCache = false := by
    simp only [parseResponseHeaders]
    rcases hd with hp | hn | ⟨hz, hdt⟩
    · have h0 : shouldCache0Of resp cfg = false := by
        unfold shouldCache0Of isPrivateOf
        rw [hp]
        simp
      simp [shouldCacheFinalOf, h0]
    · have h0 : shouldCache0Of resp cfg = false := by
        unfold shouldCache0Of noStoreOf
        rw [hn]
        simp
      simp [shouldCacheFinalOf, h0]
    · have hw : ttlWithDefaultOf resp cfg = some 0 := by
        unfold ttlWithDefaultOf
        rw [hdt, hz]
        simp
      simp [shouldCacheFinalOf, hw, ttlBad]
  refine ⟨hsc, fun req store now => ?_⟩
  by_cases hm : req.method = "GET"
  · refine ⟨removeHeaders resp (parseResponseHeaders resp cfg).headersToRemove, ?_⟩
    unfold writeToCache
    rw [if_neg (by simp [hm])]
    simp [hsc]
  · refine ⟨resp, ?_⟩
    unfold writeToCache
    rw [if_pos hm]

/-- C1 counterexample: a `max-age=0` response under a configuration with
`defaultTtl = 60` IS cached (`shouldCache = true`) and the write path
persists an entry. -/
theorem C1_counterexample :
    (parseResponseHeaders c1Resp c1Cfg).shouldCache = true ∧
    (writeToCache c1Req c1Resp c1Cfg [] 0).toOption.map
      (fun w => w.store.length) = some 1 := by decide

/-- C1 witness: a `no-store` response is never persisted. -/
theorem C1_witness :
    (parseResponseHeaders { headers := [("cache-control", "no-store")] } {}).shouldCache = false ∧
    ∃ rsp,
      writeToCache c1Req { headers := [("cache-control", "no-store")] } {} [] 5 =
        Except.ok ⟨rsp, []⟩ :=
  ⟨(C1_amended { headers := [("cache-control", "no-store")] } {}
      (Or.inr (Or.inl (by decide)))).1,
   (C1_amended { headers := [("cache-control", "no-store")] } {}
      (Or.inr (Or.inl (by decide)))).2 c1Req [] 5⟩

/-! ## C7: lock-contention exhaustion in atomicMetadataUpdate -/

/-- When the advisory lock stays valid through every backoff window, each
attempt of the retry loop fails, sleeping with a doubling delay, touching
neither the index nor the update function, and the loop finally throws. -/
lemma amuLoop_fail {α : Type} (parse : StoredVal → Option α) (inj : α → StoredVal)
    (mk lk : String) (updateFn : α → α) (dv : α) :
    ∀ (remaining maxR : Nat) (store : Store) (now ts : Int),
      remaining ≤ maxR →
      recGet store lk = some (.lockVal ts) →
      (∀ j < remaining, now + backoffTotal (maxR - remaining) j - ts < METADATA_LOCK_TIMEOUT) →
      amuLoop parse inj mk lk updateFn dv remaining maxR store now =
        ⟨.error ("Failed to acquire lock for metadata update after " ++
          natToStr maxR ++ " attempts"), store,
         (List.range remaining).map
           (fun j => RETRY_BASE_DELAY * 2 ^ (maxR - remaining + j)), 0⟩ := by
  intro remaining
  induction remaining with
  | zero => intro maxR store now ts _ _ _; rfl
  | succ r ih =>
    intro maxR store now ts hle hlock hall
    have hnow : now - ts < METADATA_LOCK_TIMEOUT := by
      have h0 := hall 0 (by omega)
      simpa [backoffTotal] using h0
    have hacq : tryAcquireLock store lk now = (false, store) := by
      unfold tryAcquireLock
      rw [hlock]
      exact if_pos hnow
    have harith : maxR - r = (maxR - (r + 1)) + 1 := by omega
    have hrec := ih maxR store (now + RETRY_BASE_DELAY * 2 ^ (maxR - (r + 1))) ts
      (by omega) hlock
      (by
        intro j hj
        have h1 := hall (j + 1) (by omega)
        rw [harith]
        have hbt : backoffTotal (maxR - (r + 1)) (j + 1) =
            RETRY_BASE_DELAY * 2 ^ (maxR - (r + 1)) +
              backoffTotal (maxR - (r + 1) + 1) j := rfl
        omega)
    have hmap : (List.range (r + 1)).map
        (fun j => RETRY_BASE_DELAY * 2 ^ (maxR - (r + 1) + j)) =
        RETRY_BASE_DELAY * 2 ^ (maxR - (r + 1)) ::
          (List.range r).map (fun j => RETRY_BASE_DELAY * 2 ^ (maxR - r + j)) := by
      rw [List.range_succ_eq_map]
      simp only [List.map_cons, List.map_map, Nat.add_zero]
      refine congrArg₂ List.cons rfl ?_
      refine List.map_congr_left (fun j _ => ?_)
      have : maxR - (r + 1) + (j + 1) = maxR - r + j := by omega
      simp [Function.comp, this]
    unfold amuLoop
    rw [hacq]
    simp only [Bool.false_eq_true, if_false]
    rw [hrec, hmap]

/-- C7: `atomicMetadataUpdate` under permanent lock contention performs the
exponential-backoff sleeps `10*2^j` for each of the `maxRetries` attempts,
never calls the update function, never writes the store, and throws. -/
theorem C7_retry_exhaustion {α : Type} (parse : StoredVal → Option α)
    (inj : α → StoredVal) (store : Store) (mk : String) (updateFn : α → α)
    (dv : α) (now ts : Int) (maxRetries : Nat)
    (hl : recGet store (lockKeyBase ++ encodeURIComponentModel mk) =
      some (.lockVal ts))
    (hall : ∀ j < maxRetries, now + backoffTotal 0 j - ts < METADATA_LOCK_TIMEOUT) :
    atomicMetadataUpdate parse inj store mk updateFn dv now maxRetries =
      ⟨.error ("Failed to acquire lock for metadata update after " ++
        natToStr maxRetries ++ " attempts"), store,
       (List.range maxRetries).map (fun j => RETRY_BASE_DELAY * 2 ^ j), 0⟩ := by
  unfold atomicMetadataUpdate
  have h := amuLoop_fail parse inj mk (lockKeyBase ++ encodeURIComponentModel mk)
    updateFn dv maxRetries maxRetries store now ts le_rfl hl
    (by simpa [Nat.sub_self] using hall)
  simpa [Nat.sub_self] using h

/-- C7 witness: a held lock with a frozen clock exhausts all 5 attempts. -/
theorem C7_witness :
    atomicMetadataUpdate (fun v => match v with | .tagMeta m => some m | _ => none)
      StoredVal.tagMeta c7Store METADATA_KEY (fun m => m) [] 0 5 =
      ⟨.error ("Failed to acquire lock for metadata update after " ++
        natToStr 5 ++ " attempts"), c7Store,
       (List.range 5).map (fun j => RETRY_BASE_DELAY * 2 ^ j), 0⟩ :=
  C7_retry_exhaustion _ _ c7Store METADATA_KEY _ _ 0 0 5 (by decide) (by decide)

/-! ## C8: the if-none-match wildcard -/

/-- C8, corrected: the wildcard `if-none-match: *` matches every cached
entry that carries a (truthy) ETag header; an entry without an ETag is
required, because the code only reaches the wildcard check behind
`if (cachedETag)`. -/
theorem C8_amended (request : RequestRec) (cached : ResponseRec)
    (config : ConditionalRequestConfig) (inm etagVal : String)
    (h1 : hGet request.headers "if-none-match" = some inm)
    (h2 : jsTrim inm = "*") (h3 : inm ≠ "")
    (he : hGet cached.headers "etag" = some etagVal) (het : etagVal ≠ "")
    (hcfg : config.etag ≠ some .ff) :
    (validateConditionalRequest request cached config).shouldReturn304 = true ∧
    (validateConditionalRequest request cached config).isMatch = true := by
  have hpw : parseIfNoneMatch inm = .wildcard := by
    unfold parseIfNoneMatch
    rw [if_neg h3, h2]
    simp
  unfold validateConditionalRequest
  rw [h1, he]
  simp [strTruthy, h3, hcfg, het, hpw]

/-- C8 counterexample: a wildcard conditional request against a matched
entry WITHOUT an ETag header does not validate (no 304), although the claim
says the wildcard always matches. -/
theorem C8_counterexample :
    (validateConditionalRequest c8Req c8Entry getDefaultConditionalConfig).shouldReturn304
      = false := by decide

/-- C8 witness: the wildcard matches an entry that has an ETag. -/
theorem C8_witness :
    (validateConditionalRequest c8Req c8EntryTagged getDefaultConditionalConfig).shouldReturn304 = true ∧
    (validateConditionalRequest c8Req c8EntryTagged getDefaultConditionalConfig).isMatch = true :=
  C8_amended c8Req c8EntryTagged getDefaultConditionalConfig "*" "\"v1\""
    (by decide) (by decide) (by decide) (by decide) (by decide) (by decide)

/-! ## C9: unparseable expires headers never expire -/

/-- C9: an entry whose `expires` header does not parse is classified Fresh,
served (the lookup result is non-null), never deleted (the store is
unchanged), and reports no revalidation need; `isCacheValid` agrees. -/
theorem C9_never_expiring (request : RequestRec) (config : CacheConfig)
    (store : Store) (now : Int) (entry : ResponseRec) (eh : String)
    (hm : request.method = "GET")
    (hfound : recGet store (readKey store request) = some (.resp entry))
    (heh : hGet entry.headers "expires" = some eh)
    (hbad : parseHttpDateMs eh = none) :
    (readFromCache request config store now).store = store ∧
    (readFromCache request config store now).cached.isSome = true ∧
    (readFromCache request config store now).needsBackgroundRevalidation = false ∧
    classifyFreshness entry now = .fresh ∧
    isCacheValid (some eh) now = true := by
  have hfs : classifyFreshness entry now = .fresh := by
    unfold classifyFreshness
    rw [heh]
    by_cases he : eh = ""
    · simp [he]
    · simp [he, hbad]
  have hicv : isCacheValid (some eh) now = true := by
    unfold isCacheValid
    by_cases he : eh = "" <;> simp [he, hbad]
  have hrd : ∀ (p : ReadResult → Prop),
      (∀ cachedv, p ⟨some cachedv, false, store⟩) →
      p (readFromCache request config store now) := by
    intro p hp
    unfold readFromCache
    simp only [hm, ne_eq, not_true_eq_false, if_false, hfound, hfs]
    split
    · split
      · exact hp _
      · exact hp _
    · exact hp _
  refine ⟨?_, ?_, ?_, hfs, hicv⟩
  · exact hrd (fun rr => rr.store = store) (fun _ => rfl)
  · exact hrd (fun rr => rr.cached.isSome = true) (fun _ => rfl)
  · exact hrd (fun rr => rr.needsBackgroundRevalidation = false) (fun _ => rfl)

/-- C9 witness: the `"invalid-date"` entry is served unchanged long after
any plausible expiry. -/
theorem C9_witness :
    (readFromCache c9Req {} c9Store 999999).store = c9Store ∧
    (readFromCache c9Req {} c9Store 999999).cached.isSome = true ∧
    (readFromCache c9Req {} c9Store 999999).needsBackgroundRevalidation = false ∧
    classifyFreshness c9Entry 999999 = .fresh ∧
    isCacheValid (some "invalid-date") 999999 = true :=
  C9_never_expiring c9Req {} c9Store 999999 c9Entry "invalid-date"
    (by decide) (by decide) (by decide) (by decide)

/-! ## C6: 304 short-circuit on Fresh / StaleInWindow -/

/-- C6: on a Fresh or StaleInWindow entry with conditional requests enabled
and a matching validator, `readFromCache` returns the body-less 304 response
in place of the entry and reports `needsBackgroundRevalidation = false`,
stale-within-window included. -/
theorem C6_conditional_shortcircuit (request : RequestRec) (config : CacheConfig)
    (store : Store) (now : Int) (entry : ResponseRec)
    (hm : request.method = "GET")
    (hfound : recGet store (readKey store request) = some (.resp entry))
    (hfs : classifyFreshness entry now ≠ .expired)
    (hen : (featuresOf config).conditionalRequests ≠ .disabled)
    (h304 : (validateConditionalRequest request entry
        (effectiveCondConfig (featuresOf config))).shouldReturn304 = true) :
    readFromCache request config store now =
      ⟨some (create304Response entry now), false, store⟩ ∧
    (create304Response entry now).status = 304 ∧
    (create304Response entry now).body = none := by
  refine ⟨?_, by simp [create304Response], by simp [create304Response]⟩
  unfold readFromCache
  simp only [hm, ne_eq, not_true_eq_false, if_false, hfound]
  cases hcf : classifyFreshness entry now with
  | expired => exact absurd hcf hfs
  | fresh => simp [hen, h304]
  | staleInWindow => simp [hen, h304]

/-- C6 witness: a stale-within-window entry with a matching `if-none-match`
yields the 304, not the entry, and no revalidation signal. -/
theorem C6_witness :
    readFromCache c5Req {} c5Store 20000 =
      ⟨some (create304Response c5Entry 20000), false, c5Store⟩ ∧
    (create304Response c5Entry 20000).status = 304 ∧
    (create304Response c5Entry 20000).body = none :=
  C6_conditional_shortcircuit c5Req {} c5Store 20000 c5Entry
    (by decide) (by decide) (by decide) (by decide) (by decide)

/-! ## C5: the expiry/SWR stage of the read path -/

/-- A request without conditional headers never validates. -/
lemma validate_no_conditional_headers (request : RequestRec) (entry : ResponseRec)
    (cc : ConditionalRequestConfig)
    (h1 : strTruthy (hGet request.headers "if-none-match") = false)
    (h2 : strTruthy (hGet request.headers "if-modified-since") = false) :
    validateConditionalRequest request entry cc =
      { isMatch := false, shouldReturn304 := false } := by
  unfold validateConditionalRequest
  simp [h1, h2]

/-- C5, corrected: for a stored entry past its parsed expiry, a request
that carries no conditional headers (otherwise a 304 short-circuit can
replace the entry and suppress the signal — see C6) gets the entry back
with `needsBackgroundRevalidation = true` when inside the SWR window, and
otherwise the entry is deleted and the lookup reports a miss. -/
theorem C5_amended (request : RequestRec) (config : CacheConfig) (store : Store)
    (now : Int) (entry : ResponseRec) (eh : String) (t : Int)
    (hm : request.method = "GET")
    (hfound : recGet store (readKey store request) = some (.resp entry))
    (heh : hGet entry.headers "expires" = some eh)
    (ht : parseHttpDateMs eh = some t)
    (hpast : t ≤ now)
    (hnc1 : strTruthy (hGet request.headers "if-none-match") = false)
    (hnc2 : strTruthy (hGet request.headers "if-modified-since") = false) :
    readFromCache request config store now =
      (if inSwrWindow entry t now then ⟨some entry, true, store⟩
       else ⟨none, false, recDelete store (readKey store request)⟩) := by
  have hene : eh ≠ "" := by
    intro h
    rw [h] at ht
    rw [show parseHttpDateMs "" = none from by decide] at ht
    exact nomatch ht
  have hcf : classifyFreshness entry now =
      (if inSwrWindow entry t now then .staleInWindow else .expired) := by
    unfold classifyFreshness inSwrWindow
    simp only [heh]
    rw [if_neg hene]
    simp only [ht]
    rw [if_pos (by omega : now ≥ t)]
    cases hs : swrSecondsOf entry with
    | none => simp
    | some s =>
      show (if s ≠ 0 ∧ now < t + s * 1000 then FreshState.staleInWindow
            else FreshState.expired) =
          (if ((decide (s ≠ 0) && decide (now < t + s * 1000)) = true)
           then FreshState.staleInWindow else FreshState.expired)
      by_cases hw : s ≠ 0 ∧ now < t + s * 1000
      · rw [if_pos hw, if_pos (by simp [hw.1, hw.2])]
      · rw [if_neg hw, if_neg (by
          rcases Decidable.not_and_iff_or_not.mp hw with h | h <;> simp [h])]
  by_cases hw : inSwrWindow entry t now
  · have hcf2 : classifyFreshness entry now = .staleInWindow := by
      rw [hcf, if_pos hw]
    rw [if_pos hw]
    unfold readFromCache
    simp only [hm, ne_eq, not_true_eq_false, if_false, hfound, hcf2]
    split
    · rw [validate_no_conditional_headers request entry _ hnc1 hnc2]
      simp
    · simp
  · have hcf2 : classifyFreshness entry now = .expired := by
      rw [hcf, if_neg hw]
    rw [if_neg hw]
    unfold readFromCache
    simp only [hm, ne_eq, not_true_eq_false, if_false, hfound, hcf2]

/-- C5 counterexample: a stale-within-window entry looked up by a matching
conditional request returns a 304 response with
`needsBackgroundRevalidation = false`, not the entry with `true` as the
claim states. -/
theorem C5_counterexample :
    classifyFreshness c5Entry 20000 = .staleInWindow ∧
    (readFromCache c5Req {} c5Store 20000).needsBackgroundRevalidation = false ∧
    (readFromCache c5Req {} c5Store 20000).cached =
      some (create304Response c5Entry 20000) := by decide

/-- C5 witness: the stale-within-window entry is served with the
revalidation signal for a plain request. -/
theorem C5_witness :
    readFromCache c5ReqPlain {} c5Store 20000 =
      (if inSwrWindow c5Entry 10000 20000 then ⟨some c5Entry, true, c5Store⟩
       else ⟨none, false, recDelete c5Store (readKey c5Store c5ReqPlain)⟩) :=
  C5_amended c5ReqPlain {} c5Store 20000 c5Entry "Thu, 01 Jan 1970 00:00:10 GMT" 10000
    (by decide) (by decide) (by decide) (by decide) (by decide) (by decide) (by decide)

/-! ## C2: invalidate-by-tag and the sibling tag index -/

/-- C2 counterexample: after writing the `x`- and `x,y`-tagged entries and
invalidating tag `x`, both entries are deleted (count 2), but tag `y`'s
key-set in the index still holds ONE (dangling) key, not zero as claimed. -/
theorem C2_counterexample :
    c2Run = .ok (2, [(METADATA_KEY, .tagMeta [("y", ["https://example.com/b"])])]) ∧
    (c2Run.toOption.map (fun r =>
      ((recGet (tagMetaAt r.2 METADATA_KEY) "y").getD []).length)) = some 1 := by
  decide

/-- C2, corrected: invalidating `x` deletes both entries from the store and
removes `x` from the tag index, but `invalidateByTag` does not rewrite the
other tags' key-sets, so `y` keeps one dangling reference to the deleted
`/b` entry. -/
theorem C2_amended :
    c2Run = .ok (2, c2After) ∧
    recGet c2After "https://example.com/a" = none ∧
    recGet c2After "https://example.com/b" = none ∧
    recGet (tagMetaAt c2After METADATA_KEY) "x" = none ∧
    recGet (tagMetaAt c2After METADATA_KEY) "y" = some ["https://example.com/b"] := by
  decide

/-! ## C10: tag validation -/

lemma length_dropWhile_le (p : Char → Bool) (l : List Char) :
    (l.dropWhile p).length ≤ l.length := by
  induction l with
  | nil => simp
  | cons a l ih =>
    rw [List.dropWhile_cons]
    split
    · simp; omega
    · simp

lemma jsTrim_length_le (s : String) : (jsTrim s).length ≤ s.length := by
  show (((s.data.dropWhile isJsWhitespace).reverse.dropWhile isJsWhitespace).reverse).length ≤ s.data.length
  rw [List.length_reverse]
  calc ((s.data.dropWhile isJsWhitespace).reverse.dropWhile isJsWhitespace).length
      ≤ (s.data.dropWhile isJsWhitespace).reverse.length := length_dropWhile_le _ _
    _ = (s.data.dropWhile isJsWhitespace).length := List.length_reverse _
    _ ≤ s.data.length := length_dropWhile_le _ _

lemma sanitizeTag_length_le (t : String) : (sanitizeTag t).length ≤ t.length := by
  unfold sanitizeTag
  calc (jsTrim (String.mk (t.data.filter _))).length
      ≤ (String.mk (t.data.filter (fun c => !(c.toNat ≤ 31 || c.toNat = 127)))).length :=
        jsTrim_length_le _
    _ ≤ t.data.length := List.length_filter_le _ _

/-- C10: `validateCacheTag` returns exactly the control-character-stripped,
trimmed tag and only when it is non-empty, within 100 characters (the length
gate runs on the raw tag, which bounds the sanitized one) and free of
`<`, `>`, `"`; each violation throws, and `validateCacheTags` throws on more
than 100 tags. -/
theorem C10_tag_validation (tag : String) (tags : List String) :
    (∀ s, validateCacheTag tag = .ok s →
      s = sanitizeTag tag ∧ s.length ≠ 0 ∧ s.length ≤ 100 ∧
      ∀ c ∈ s.data, ¬(c = '<' ∨ c = '>' ∨ c = '"')) ∧
    (tag.length = 0 → validateCacheTag tag = .error "Cache tag cannot be empty") ∧
    (tag.length > 100 →
      validateCacheTag tag = .error "Cache tag too long (max 100 characters)") ∧
    (tag.length ≠ 0 → tag.length ≤ 100 → (sanitizeTag tag).length = 0 →
      validateCacheTag tag = .error "Cache tag cannot be empty after sanitization") ∧
    (tag.length ≠ 0 → tag.length ≤ 100 →
      (sanitizeTag tag).data.any (fun c => c == '<' || c == '>' || c == '"') = true →
      validateCacheTag tag = .error "Cache tag contains invalid characters (<, >, \")") ∧
    (tags.length > 100 → validateCacheTags tags = .error "Too many cache tags (max 100)") := by
  refine ⟨?_, ?_, ?_, ?_, ?_, ?_⟩
  · intro s hs
    unfold validateCacheTag at hs
    by_cases h0 : tag.length = 0
    · rw [if_pos h0] at hs; exact nomatch hs
    rw [if_neg h0] at hs
    by_cases h1 : tag.length > 100
    · rw [if_pos h1] at hs; exact nomatch hs
    rw [if_neg h1] at hs
    by_cases h2 : (sanitizeTag tag).length = 0
    · rw [if_pos h2] at hs; exact nomatch hs
    rw [if_neg h2] at hs
    by_cases h3 : (sanitizeTag tag).data.any (fun c => c == '<' || c == '>' || c == '"') = true
    · rw [if_pos h3] at hs; exact nomatch hs
    rw [if_neg h3] at hs
    have hseq : s = sanitizeTag tag := (Except.ok.inj hs).symm
    subst hseq
    refine ⟨rfl, h2, le_trans (sanitizeTag_length_le tag) (by omega), ?_⟩
    intro c hc hbad
    apply h3
    rw [List.any_eq_true]
    refine ⟨c, hc, ?_⟩
    rcases hbad with h | h | h <;> simp [h]
  · intro h0
    unfold validateCacheTag
    rw [if_pos h0]
  · intro h1
    unfold validateCacheTag
    rw [if_neg (by omega), if_pos h1]
  · intro h0 h1 h2
    unfold validateCacheTag
    rw [if_neg h0, if_neg (by omega), if_pos h2]
  · intro h0 h1 h3
    unfold validateCacheTag
    by_cases h2 : (sanitizeTag tag).length = 0
    · exfalso
      rw [List.any_eq_true] at h3
      obtain ⟨c, hc, _⟩ := h3
      have : (sanitizeTag tag).data = [] := by
        have := h2
        rw [show (sanitizeTag tag).length = (sanitizeTag tag).data.length from rfl] at this
        exact List.length_eq_zero.mp this
      rw [this] at hc
      exact nomatch hc
    · rw [if_neg h0, if_neg (by omega), if_neg h2, if_pos h3]
  · intro h
    unfold validateCacheTags
    rw [if_pos h]

/-- C10 witness: 101 tags are rejected. -/
theorem C10_witness :
    validateCacheTags (List.replicate 101 "t") = .error "Too many cache tags (max 100)" :=
  (C10_tag_validation "x" (List.replicate 101 "t")).2.2.2.2.2 (by decide)

/-! ## C3: cache-key derivation. List-level join lemmas -/

lemma joinStr_data (sep : String) (l : List String) :
    (joinStr sep l).data = joinSep sep.data (l.map String.data) := by
  induction l with
  | nil => rfl
  | cons x xs ih =>
    cases xs with
    | nil => rfl
    | cons y ys =>
      show (x ++ sep ++ joinStr sep (y :: ys)).data = _
      rw [String.data_append, String.data_append, ih]
      rfl

lemma joinSep_len (sep : List Char) : ∀ l : List (List Char),
    (joinSep sep l).length = (l.map List.length).sum + (l.length - 1) * sep.length := by
  intro l
  induction l with
  | nil => simp [joinSep]
  | cons x xs ih =>
    cases xs with
    | nil => simp [joinSep]
    | cons y ys =>
      show (x ++ sep ++ joinSep sep (y :: ys)).length = _
      rw [List.length_append, List.length_append, ih]
      simp only [List.map_cons, List.sum_cons, List.length_cons, Nat.succ_sub_one,
        Nat.succ_mul]
      ring

lemma joinSep_inj_ptwise (sep : List Char) (l1 l2 : List (List Char))
    (hf : List.Forall₂ (fun a b => a.length = b.length) l1 l2)
    (hj : joinSep sep l1 = joinSep sep l2) : l1 = l2 := by
  induction hf with
  | nil => rfl
  | @cons x y xs ys hxy htail ih =>
    cases htail with
    | nil =>
      simp only [joinSep] at hj
      rw [hj]
    | @cons a b as bs hab htl =>
      have hj2 : x ++ (sep ++ joinSep sep (a :: as)) = y ++ (sep ++ joinSep sep (b :: bs)) := by
        simpa [joinSep, List.append_assoc] using hj
      obtain ⟨hxy2, hrest⟩ := List.append_inj hj2 hxy
      have hx2 := List.append_cancel_left hrest
      rw [hxy2, ih hx2]

lemma sum_map_getD (A : List Char) : ∀ ms : List (Option (List Char)),
    ((ms.map (fun o => o.getD A)).map List.length).sum =
      ((ms.filterMap id).map List.length).sum + (ms.count none) * A.length := by
  intro ms
  induction ms with
  | nil => simp
  | cons o rest ih =>
    cases o with
    | none =>
      have hfm : List.filterMap id (none :: rest) = List.filterMap id rest := by simp
      simp only [List.map_cons, Option.getD_none, List.sum_cons, ih,
        List.count_cons_self, hfm]
      ring
    | some c =>
      have hcnt : (some c :: rest).count (none : Option (List Char)) = rest.count none := by
        rw [List.count_cons]
        simp
      have hfm : List.filterMap id (some c :: rest) = c :: List.filterMap id rest := by simp
      simp only [List.map_cons, Option.getD_some, List.sum_cons, ih, hcnt, hfm]
      ring

lemma forall₂_map_getD (A B : List Char) (hAB : A.length = B.length) :
    ∀ ms : List (Option (List Char)),
      List.Forall₂ (fun a b => a.length = b.length)
        (ms.map (fun o => o.getD A)) (ms.map (fun o => o.getD B)) := by
  intro ms
  induction ms with
  | nil => exact List.Forall₂.nil
  | cons o rest ih =>
    cases o with
    | none => exact List.Forall₂.cons hAB ih
    | some c => exact List.Forall₂.cons rfl ih

lemma map_getD_inj (A B : List Char) : ∀ ms : List (Option (List Char)),
    none ∈ ms →
    ms.map (fun o => o.getD A) = ms.map (fun o => o.getD B) → A = B := by
  intro ms
  induction ms with
  | nil => intro h; exact absurd h (by simp)
  | cons o rest ih =>
    intro hm heq
    simp only [List.map_cons, List.cons.injEq] at heq
    cases o with
    | none => exact heq.1
    | some c =>
      have : none ∈ rest := by
        rcases List.mem_cons.mp hm with h | h
        · exact nomatch h
        · exact h
      exact ih this heq.2

lemma joinSep_subst (sep A B : List Char) (ms : List (Option (List Char)))
    (hm : none ∈ ms)
    (h : joinSep sep (ms.map (fun o => o.getD A)) =
         joinSep sep (ms.map (fun o => o.getD B))) : A = B := by
  have hlen := congrArg List.length h
  rw [joinSep_len, joinSep_len, sum_map_getD, sum_map_getD] at hlen
  simp only [List.length_map] at hlen
  have hcnt : 0 < ms.count (none : Option (List Char)) := List.count_pos_iff.mpr hm
  have hAB : A.length = B.length := by
    have := Nat.eq_of_mul_eq_mul_left hcnt (by omega :
      ms.count (none : Option (List Char)) * A.length =
        ms.count (none : Option (List Char)) * B.length)
    omega
  exact map_getD_inj A B ms hm
    (joinSep_inj_ptwise sep _ _ (forall₂_map_getD A B hAB ms) h)

/-! ## C3: injectivity of the form-urlencoding -/

lemma utf8Bytes_ne_nil (n : Nat) : utf8Bytes n ≠ [] := by
  unfold utf8Bytes
  split_ifs <;> simp

lemma utf8Bytes_lt_256 (n : Nat) (hn : n < 1114112) :
    ∀ b ∈ utf8Bytes n, b < 256 := by
  intro b hb
  unfold utf8Bytes at hb
  split_ifs at hb with h1 h2 h3
  · simp at hb; omega
  · simp at hb; rcases hb with h | h <;> omega
  · simp at hb; rcases hb with h | h | h <;> omega
  · simp at hb; rcases hb with h | h | h | h <;> omega

lemma utf8Bytes_inj (m n : Nat) (hm : m < 1114112) (hn : n < 1114112)
    (h : utf8Bytes m = utf8Bytes n) : m = n := by
  unfold utf8Bytes at h
  split_ifs at h <;> simp_all <;> omega

lemma utf8Bytes_isPfx (m n : Nat) (hm : m < 1114112) (hn : n < 1114112)
    (h : utf8Bytes m <+: utf8Bytes n) : m = n := by
  have hlen : (utf8Bytes m).length = (utf8Bytes n).length := by
    obtain ⟨r, hr⟩ := h
    have hhead : (utf8Bytes m).headD 0 = (utf8Bytes n).headD 0 := by
      rw [← hr]
      cases hne : utf8Bytes m with
      | nil => exact absurd hne (utf8Bytes_ne_nil m)
      | cons a l => simp
    unfold utf8Bytes at hhead ⊢
    split_ifs at hhead ⊢ <;> simp_all <;> omega
  exact utf8Bytes_inj m n hm hn (List.IsPrefix.eq_of_length h hlen)

lemma hexDigit_inj (a b : Nat) (ha : a < 16) (hb : b < 16)
    (h : hexDigit a = hexDigit b) : a = b := by
  interval_cases a <;> interval_cases b <;> simp_all <;> exact nomatch h

lemma pctOfBytes_head (b : Nat) (bs : List Nat) :
    pctOfBytes (b :: bs) = '%' :: hexDigit (b / 16) :: hexDigit (b % 16) :: pctOfBytes bs := by
  rfl

lemma pctOfBytes_isPfx : ∀ (bs1 bs2 : List Nat),
    (∀ b ∈ bs1, b < 256) → (∀ b ∈ bs2, b < 256) →
    pctOfBytes bs1 <+: pctOfBytes bs2 → bs1 <+: bs2 := by
  intro bs1
  induction bs1 with
  | nil => intro bs2 _ _ _; exact List.nil_prefix
  | cons b1 t1 ih =>
    intro bs2 h1 h2 hp
    cases bs2 with
    | nil =>
      rw [pctOfBytes_head] at hp
      have := List.IsPrefix.length_le hp
      simp [pctOfBytes] at this
    | cons b2 t2 =>
      rw [pctOfBytes_head, pctOfBytes_head] at hp
      obtain ⟨hpc, hp1⟩ := List.cons_prefix_cons.mp hp
      obtain ⟨hh1, hp2⟩ := List.cons_prefix_cons.mp hp1
      obtain ⟨hh2, hp3⟩ := List.cons_prefix_cons.mp hp2
      have hb1 : b1 < 256 := h1 b1 (by simp)
      have hb2 : b2 < 256 := h2 b2 (by simp)
      have hdiv : b1 / 16 = b2 / 16 :=
        hexDigit_inj _ _ (by omega) (by omega) hh1
      have hmod : b1 % 16 = b2 % 16 :=
        hexDigit_inj _ _ (by omega) (by omega) hh2
      have hb : b1 = b2 := by omega
      have ht : t1 <+: t2 := ih t2 (fun b hb => h1 b (by simp [hb]))
        (fun b hb => h2 b (by simp [hb])) hp3
      rw [hb]
      exact List.cons_prefix_cons.mpr ⟨rfl, ht⟩

lemma char_toNat_lt (c : Char) : c.toNat < 1114112 := by
  rcases c.valid with h | ⟨_, h2⟩
  · exact Nat.lt_trans h (by norm_num)
  · exact h2

lemma char_toNat_inj (a b : Char) (h : a.toNat = b.toNat) : a = b :=
  Char.eq_of_val_eq (UInt32.ext h)

lemma pct_head (n : Nat) :
    ∃ t, pctOfBytes (utf8Bytes n) = '%' :: t := by
  cases hb : utf8Bytes n with
  | nil => exact absurd hb (utf8Bytes_ne_nil n)
  | cons b bs => exact ⟨_, rfl⟩

lemma encChar_ne_nil (c : Char) : encChar c ≠ [] := by
  unfold encChar
  split_ifs with h1 h2
  · simp
  · simp
  · obtain ⟨t, ht⟩ := pct_head c.toNat
    rw [ht]
    simp

lemma encChar_kept (c : Char) (h : keptChar c = true) : encChar c = [c] := by
  unfold encChar; rw [if_pos h]

lemma encChar_space (c : Char) (h1 : ¬keptChar c = true) (h2 : (c == ' ') = true) :
    encChar c = ['+'] := by
  unfold encChar; rw [if_neg h1, if_pos h2]

lemma encChar_pct (c : Char) (h1 : ¬keptChar c = true) (h2 : ¬(c == ' ') = true) :
    encChar c = pctOfBytes (utf8Bytes c.toNat) := by
  unfold encChar; rw [if_neg h1, if_neg h2]

lemma encChar_prefixfree (a b : Char) (h : encChar a <+: encChar b) : a = b := by
  by_cases ka : keptChar a = true
  · rw [encChar_kept a ka] at h
    by_cases kb : keptChar b = true
    · rw [encChar_kept b kb] at h
      simpa using (List.cons_prefix_cons.mp h).1
    · by_cases sb : (b == ' ') = true
      · rw [encChar_space b kb sb] at h
        have ha : a = '+' := by simpa using (List.cons_prefix_cons.mp h).1
        rw [ha] at ka
        exact absurd ka (by decide)
      · rw [encChar_pct b kb sb] at h
        obtain ⟨t, ht⟩ := pct_head b.toNat
        rw [ht] at h
        have ha : a = '%' := by simpa using (List.cons_prefix_cons.mp h).1
        rw [ha] at ka
        exact absurd ka (by decide)
  · by_cases sa : (a == ' ') = true
    · have ha : a = ' ' := by simpa using sa
      rw [encChar_space a ka sa] at h
      by_cases kb : keptChar b = true
      · rw [encChar_kept b kb] at h
        have hb : '+' = b := by simpa using (List.cons_prefix_cons.mp h).1
        rw [← hb] at kb
        exact absurd kb (by decide)
      · by_cases sb : (b == ' ') = true
        · have hb : b = ' ' := by simpa using sb
          rw [ha, hb]
        · rw [encChar_pct b kb sb] at h
          obtain ⟨t, ht⟩ := pct_head b.toNat
          rw [ht] at h
          have : '+' = '%' := by simpa using (List.cons_prefix_cons.mp h).1
          exact nomatch this
    · rw [encChar_pct a ka sa] at h
      by_cases kb : keptChar b = true
      · rw [encChar_kept b kb] at h
        cases hb : utf8Bytes a.toNat with
        | nil => exact absurd hb (utf8Bytes_ne_nil _)
        | cons x xs =>
          rw [hb, pctOfBytes_head] at h
          have := List.IsPrefix.length_le h
          simp at this
      · by_cases sb : (b == ' ') = true
        · rw [encChar_space b kb sb] at h
          cases hb : utf8Bytes a.toNat with
          | nil => exact absurd hb (utf8Bytes_ne_nil _)
          | cons x xs =>
            rw [hb, pctOfBytes_head] at h
            have := List.IsPrefix.length_le h
            simp at this
        · rw [encChar_pct b kb sb] at h
          have hbytes := pctOfBytes_isPfx _ _
            (utf8Bytes_lt_256 _ (char_toNat_lt a)) (utf8Bytes_lt_256 _ (char_toNat_lt b)) h
          exact char_toNat_inj a b
            (utf8Bytes_isPfx _ _ (char_toNat_lt a) (char_toNat_lt b) hbytes)

lemma encAppend_inj (a b : Char) (r1 r2 : List Char)
    (h : encChar a ++ r1 = encChar b ++ r2) : a = b ∧ r1 = r2 := by
  have hpa : encChar a <+: encChar a ++ r1 := ⟨r1, rfl⟩
  have hpb : encChar b <+: encChar a ++ r1 := ⟨r2, h.symm⟩
  have hab : a = b := by
    by_cases hl : (encChar a).length ≤ (encChar b).length
    · exact encChar_prefixfree a b (List.prefix_of_prefix_length_le hpa hpb hl)
    · exact (encChar_prefixfree b a
        (List.prefix_of_prefix_length_le hpb hpa (by omega))).symm
  refine ⟨hab, ?_⟩
  rw [hab] at h
  exact List.append_cancel_left h

lemma encList_inj : ∀ l1 l2 : List Char,
    l1.flatMap encChar = l2.flatMap encChar → l1 = l2 := by
  intro l1
  induction l1 with
  | nil =>
    intro l2 h
    cases l2 with
    | nil => rfl
    | cons b t =>
      rw [List.flatMap_nil, List.flatMap_cons] at h
      have hlen := congrArg List.length h
      simp at hlen
      have hb : (encChar b).length = 0 := by omega
      exact absurd (List.length_eq_zero.mp hb) (encChar_ne_nil b)
  | cons a t ih =>
    intro l2 h
    cases l2 with
    | nil =>
      rw [List.flatMap_nil, List.flatMap_cons] at h
      have hlen := congrArg List.length h
      simp at hlen
      exact absurd hlen.1 (encChar_ne_nil a)
    | cons b t2 =>
      rw [List.flatMap_cons, List.flatMap_cons] at h
      obtain ⟨hab, ht⟩ := encAppend_inj a b _ _ h
      rw [hab, ih t2 ht]

lemma formUrlEncode_inj (v w : String) (h : formUrlEncode v = formUrlEncode w) :
    v = w := by
  unfold formUrlEncode at h
  have := congrArg String.data h
  simp only [] at this
  exact String.ext (encList_inj v.data w.data this)

/-! ## C3: sort membership and the URLSearchParams build -/

lemma mem_insertBy {α : Type} (lt : α → α → Bool) (x a : α) :
    ∀ l : List α, a ∈ insertBy lt x l ↔ a = x ∨ a ∈ l := by
  intro l
  induction l with
  | nil => simp [insertBy]
  | cons y ys ih =>
    unfold insertBy
    split
    · simp only [List.mem_cons, ih]
      tauto
    · simp only [List.mem_cons]

lemma mem_sortBy {α : Type} (lt : α → α → Bool) (a : α) :
    ∀ l : List α, a ∈ sortBy lt l ↔ a ∈ l := by
  intro l
  induction l with
  | nil => simp [sortBy]
  | cons y ys ih =>
    unfold sortBy at ih ⊢
    rw [List.foldr_cons, mem_insertBy]
    simp only [List.mem_cons, ih]

lemma dedupAvoid_sub : ∀ (ns avoid : List String) (x : String),
    x ∈ dedupAvoid avoid ns → x ∈ ns := by
  intro ns
  induction ns with
  | nil => intro avoid x h; exact absurd h (by simp [dedupAvoid])
  | cons n rest ih =>
    intro avoid x h
    unfold dedupAvoid at h
    split at h
    · exact List.mem_cons_of_mem n (ih avoid x h)
    · rcases List.mem_cons.mp h with h1 | h1
      · rw [h1]; exact List.mem_cons_self n rest
      · exact List.mem_cons_of_mem n (ih (n :: avoid) x h1)

lemma mem_dedupAvoid : ∀ (ns avoid : List String) (x : String),
    x ∈ ns → x ∉ avoid → x ∈ dedupAvoid avoid ns := by
  intro ns
  induction ns with
  | nil => intro avoid x h _; exact absurd h (by simp)
  | cons n rest ih =>
    intro avoid x hx hav
    unfold dedupAvoid
    split
    · rename_i hn
      rcases List.mem_cons.mp hx with h1 | h1
      · rw [h1] at hav; exact absurd hn hav
      · exact ih avoid x h1 hav
    · rcases List.mem_cons.mp hx with h1 | h1
      · rw [h1]; exact List.mem_cons_self n _
      · by_cases hxn : x = n
        · rw [hxn]; exact List.mem_cons_self n _
        · exact List.mem_cons_of_mem n
            (ih (n :: avoid) x h1 (by simp [hxn, hav]))

lemma dedupAvoid_avoid : ∀ (ns avoid : List String) (x : String),
    x ∈ dedupAvoid avoid ns → x ∉ avoid := by
  intro ns
  induction ns with
  | nil => intro avoid x h; exact absurd h (by simp [dedupAvoid])
  | cons n rest ih =>
    intro avoid x h
    unfold dedupAvoid at h
    split at h
    · exact ih avoid x h
    · rename_i hn
      rcases List.mem_cons.mp h with h1 | h1
      · rw [h1]; exact hn
      · intro hav
        exact ih (n :: avoid) x h1 (List.mem_cons_of_mem n hav)

lemma dedupAvoid_nodup : ∀ (ns avoid : List String), (dedupAvoid avoid ns).Nodup := by
  intro ns
  induction ns with
  | nil => intro avoid; simp [dedupAvoid]
  | cons n rest ih =>
    intro avoid
    unfold dedupAvoid
    split
    · exact ih avoid
    · refine List.nodup_cons.mpr ⟨?_, ih (n :: avoid)⟩
      intro hmem
      exact dedupAvoid_avoid rest (n :: avoid) n hmem (List.mem_cons_self n avoid)

lemma dedupAvoid_congr : ∀ (ns a b : List String),
    (∀ x, x ∈ a ↔ x ∈ b) → dedupAvoid a ns = dedupAvoid b ns := by
  intro ns
  induction ns with
  | nil => intro a b _; rfl
  | cons n rest ih =>
    intro a b hab
    unfold dedupAvoid
    by_cases hn : n ∈ a
    · rw [if_pos hn, if_pos ((hab n).mp hn)]
      exact ih a b hab
    · rw [if_neg hn, if_neg (fun h => hn ((hab n).mpr h))]
      refine congrArg (List.cons n) (ih (n :: a) (n :: b) ?_)
      intro x
      simp [hab x]

lemma uspSet_mem_eq (f : String → String) (q : String) :
    ∀ ds : List String, q ∈ ds → ds.Nodup →
      uspSet (ds.map (fun n => (n, f n))) q (f q) = ds.map (fun n => (n, f n)) := by
  intro ds
  induction ds with
  | nil => intro h _; exact absurd h (by simp)
  | cons d rest ih =>
    intro hq hnd
    rw [List.map_cons]
    unfold uspSet
    by_cases hdq : d = q
    · have hcond : (((d, f d)).1 == q) = true := by simp [hdq]
      rw [hcond, if_pos rfl, hdq]
      refine congrArg (List.cons (q, f q)) ?_
      have hqrest : q ∉ rest := by
        rw [← hdq]
        exact (List.nodup_cons.mp hnd).1
      rw [List.filter_eq_self.mpr]
      intro p hp
      obtain ⟨n, hn, hpn⟩ := List.mem_map.mp hp
      rw [← hpn]
      simp only [Bool.not_eq_true', beq_eq_false_iff_ne, ne_eq]
      intro hqn
      exact hqrest (hqn ▸ hn)
    · have hcond : (((d, f d)).1 == q) = false := by simp [hdq]
      rw [hcond]
      simp only [Bool.false_eq_true, if_false]
      refine congrArg (List.cons (d, f d)) ?_
      have hq2 : q ∈ rest := by
        rcases List.mem_cons.mp hq with h | h
        · exact absurd h.symm hdq
        · exact h
      exact ih hq2 (List.nodup_cons.mp hnd).2

lemma uspSet_not_mem (f : String → String) (q : String) :
    ∀ ds : List String, q ∉ ds →
      uspSet (ds.map (fun n => (n, f n))) q (f q) = (ds ++ [q]).map (fun n => (n, f n)) := by
  intro ds
  induction ds with
  | nil => intro _; rfl
  | cons d rest ih =>
    intro hq
    rw [List.map_cons]
    unfold uspSet
    have hdq : ¬d = q := fun h => hq (by simp [h])
    have hcond : (((d, f d)).1 == q) = false := by simp [hdq]
    rw [hcond]
    simp only [Bool.false_eq_true, if_false]
    rw [ih (fun h => hq (List.mem_cons_of_mem d h))]
    rfl

lemma uspBuild_go (f : String → String) : ∀ (ns ds : List String), ds.Nodup →
    List.foldl (fun sk q => uspSet sk q (f q)) (ds.map (fun n => (n, f n))) ns =
      (ds ++ dedupAvoid ds ns).map (fun n => (n, f n)) := by
  intro ns
  induction ns with
  | nil => intro ds _; simp [dedupAvoid]
  | cons n rest ih =>
    intro ds hnd
    rw [List.foldl_cons]
    unfold dedupAvoid
    by_cases hn : n ∈ ds
    · rw [if_pos hn, uspSet_mem_eq f n ds hn hnd]
      exact ih ds hnd
    · rw [if_neg hn, uspSet_not_mem f n ds hn]
      have hnd2 : (ds ++ [n]).Nodup := by
        simp [List.nodup_append, hnd, hn]
      rw [ih (ds ++ [n]) hnd2]
      have hcg : dedupAvoid (ds ++ [n]) rest = dedupAvoid (n :: ds) rest := by
        refine dedupAvoid_congr rest (ds ++ [n]) (n :: ds) ?_
        intro x
        simp
        tauto
      rw [hcg]
      simp

lemma uspBuild_eq (f : String → String) (ns : List String) :
    uspBuild ns f = (dedupAvoid [] ns).map (fun n => (n, f n)) := by
  have := uspBuild_go f ns [] List.nodup_nil
  simpa [uspBuild] using this

/-! ## C3: key-structure lemmas -/

lemma strApp_cancel_left {a b c : String} (h : a ++ b = a ++ c) : b = c := by
  have hd := congrArg String.data h
  rw [String.data_append, String.data_append] at hd
  exact String.ext (List.append_cancel_left hd)

lemma hGet_congr_lower (hs : List (String × String)) (n m : String)
    (h : jsToLower n = jsToLower m) : hGet hs n = hGet hs m := by
  unfold hGet
  rw [h]

lemma queryPartOf_congr (r1 r2 : RequestRec) (v : CacheVary)
    (h : r1.url = r2.url) : queryPartOf r1 v = queryPartOf r2 v := by
  unfold queryPartOf
  rw [h]

lemma cookieSegOf_congr (r1 r2 : RequestRec) (v : CacheVary)
    (h : ∀ cn ∈ v.cookies, getCookieValue r1 cn = getCookieValue r2 cn) :
    cookieSegOf r1 v = cookieSegOf r2 v := by
  unfold cookieSegOf
  split
  · refine congrArg (fun s => ["c=" ++ s]) ?_
    refine congrArg (joinStr ",") ?_
    refine List.map_congr_left ?_
    intro cn hcn
    rw [h cn ((mem_sortBy _ cn v.cookies).mp hcn)]
  · rfl

lemma headerSegOf_nonempty (r : RequestRec) (v : CacheVary) (h : v.headers ≠ []) :
    headerSegOf r v =
      ["h=" ++ joinStr ","
        ((sortStrings v.headers).map (fun hn =>
          jsToLower hn ++ ":" ++ ((hGet r.headers hn).getD "")))] := by
  unfold headerSegOf
  rw [if_pos (List.length_pos.mpr h)]

lemma key_vary_form (request : RequestRec) (v : CacheVary)
    (hm : request.method = "GET")
    (hvp : (headerSegOf request v ++ cookieSegOf request v).length > 0) :
    defaultGetCacheKey request (some v) =
      request.url.origin ++ request.url.pathname ++ queryPartOf request v ++ "::" ++
        joinStr "::" (headerSegOf request v ++ cookieSegOf request v) := by
  unfold defaultGetCacheKey
  rw [if_neg (by simp [hm])]
  simp only []
  rw [if_pos hvp]

lemma strApp_cancel_right {a b c : String} (h : a ++ c = b ++ c) : a = b := by
  have hd := congrArg String.data h
  rw [String.data_append, String.data_append] at hd
  exact String.ext (List.append_cancel_right hd)

lemma joinStr_head_cancel (J1 J2 p : String) (C : List String)
    (h : joinStr "::" ((p ++ J1) :: C) = joinStr "::" ((p ++ J2) :: C)) :
    J1 = J2 := by
  cases C with
  | nil =>
    simp only [joinStr] at h
    exact strApp_cancel_left h
  | cons c cs =>
    simp only [joinStr] at h
    have h1 : (p ++ J1 ++ "::") ++ joinStr "::" (c :: cs) =
        (p ++ J2 ++ "::") ++ joinStr "::" (c :: cs) := by
      simpa [String.append_assoc] using h
    have h2 := strApp_cancel_right h1
    have h3 := strApp_cancel_right h2
    exact strApp_cancel_left h3

lemma header_join_inj (r1 r2 : RequestRec) (v : CacheVary) (hname v1 v2 : String)
    (hmem : hname ∈ v.headers)
    (hv1 : hGet r1.headers hname = some v1)
    (hv2 : hGet r2.headers hname = some v2)
    (hagree : ∀ hn ∈ v.headers, jsToLower hn ≠ jsToLower hname →
      hGet r1.headers hn = hGet r2.headers hn)
    (hj : joinStr ","
        ((sortStrings v.headers).map (fun hn =>
          jsToLower hn ++ ":" ++ ((hGet r1.headers hn).getD ""))) =
      joinStr ","
        ((sortStrings v.headers).map (fun hn =>
          jsToLower hn ++ ":" ++ ((hGet r2.headers hn).getD "")))) :
    v1 = v2 := by
  set sorted := sortStrings v.headers with hsorted
  set F1 : String → String :=
    fun n => jsToLower n ++ ":" ++ ((hGet r1.headers n).getD "") with hF1
  set F2 : String → String :=
    fun n => jsToLower n ++ ":" ++ ((hGet r2.headers n).getD "") with hF2
  set A1 : List Char := (jsToLower hname ++ ":" ++ v1).data with hA1
  set A2 : List Char := (jsToLower hname ++ ":" ++ v2).data with hA2
  set ms : List (Option (List Char)) := sorted.map (fun n =>
    if jsToLower n = jsToLower hname then none else some ((F1 n).data)) with hms
  have hmapA1 : ms.map (fun o => o.getD A1) = (sorted.map F1).map String.data := by
    rw [hms, List.map_map, List.map_map]
    refine List.map_congr_left (fun n hn => ?_)
    by_cases hcond : jsToLower n = jsToLower hname
    · simp only [Function.comp, hcond, if_pos rfl, Option.getD_none]
      rw [hA1, hF1]
      have : hGet r1.headers n = some v1 := by
        rw [hGet_congr_lower r1.headers n hname hcond]
        exact hv1
      simp [this, hcond]
    · simp only [Function.comp, if_neg hcond, Option.getD_some]
  have hmapA2 : ms.map (fun o => o.getD A2) = (sorted.map F2).map String.data := by
    rw [hms, List.map_map, List.map_map]
    refine List.map_congr_left (fun n hn => ?_)
    by_cases hcond : jsToLower n = jsToLower hname
    · simp only [Function.comp, hcond, if_pos rfl, Option.getD_none]
      rw [hA2, hF2]
      have : hGet r2.headers n = some v2 := by
        rw [hGet_congr_lower r2.headers n hname hcond]
        exact hv2
      simp [this, hcond]
    · simp only [Function.comp, if_neg hcond, Option.getD_some]
      rw [hF1, hF2]
      have := hagree n ((mem_sortBy _ n v.headers).mp (hsorted ▸ hn)) hcond
      simp [this]
  have hnone : none ∈ ms := by
    rw [hms]
    exact List.mem_map.mpr ⟨hname, (mem_sortBy _ hname v.headers).mpr hmem, by simp⟩
  have hdata := congrArg String.data hj
  rw [joinStr_data, joinStr_data] at hdata
  rw [← hmapA1, ← hmapA2] at hdata
  have hAB := joinSep_subst (",".data) A1 A2 ms hnone hdata
  rw [hA1, hA2] at hAB
  have := strApp_cancel_left (String.ext hAB)
  exact this

lemma key_ne_of_header_diff (r1 r2 : RequestRec) (v : CacheVary)
    (hname v1 v2 : String)
    (hm1 : r1.method = "GET") (hm2 : r2.method = "GET")
    (hurl : r1.url = r2.url)
    (hmem : hname ∈ v.headers)
    (hv1 : hGet r1.headers hname = some v1)
    (hv2 : hGet r2.headers hname = some v2)
    (hne : v1 ≠ v2)
    (hagree : ∀ hn ∈ v.headers, jsToLower hn ≠ jsToLower hname →
      hGet r1.headers hn = hGet r2.headers hn)
    (hcookie : ∀ cn ∈ v.cookies, getCookieValue r1 cn = getCookieValue r2 cn) :
    defaultGetCacheKey r1 (some v) ≠ defaultGetCacheKey r2 (some v) := by
  intro hk
  have hvh : v.headers ≠ [] := fun h => by rw [h] at hmem; exact nomatch hmem
  have hcs := cookieSegOf_congr r1 r2 v hcookie
  have hqp := queryPartOf_congr r1 r2 v hurl
  have hh1 := headerSegOf_nonempty r1 v hvh
  have hh2 := headerSegOf_nonempty r2 v hvh
  have hvp1 : (headerSegOf r1 v ++ cookieSegOf r1 v).length > 0 := by
    rw [hh1]; simp
  have hvp2 : (headerSegOf r2 v ++ cookieSegOf r2 v).length > 0 := by
    rw [hh2]; simp
  rw [key_vary_form r1 v hm1 hvp1, key_vary_form r2 v hm2 hvp2] at hk
  rw [hurl, hqp, hcs, hh1, hh2] at hk
  have hk2 := strApp_cancel_left hk
  have hJ := joinStr_head_cancel _ _ "h=" (cookieSegOf r2 v) (by
    simpa using hk2)
  exact hne (header_join_inj r1 r2 v hname v1 v2 hmem hv1 hv2 hagree hJ)

lemma joinStr_last_cancel (p J1 J2 : String) : ∀ H : List String,
    joinStr "::" (H ++ [p ++ J1]) = joinStr "::" (H ++ [p ++ J2]) → J1 = J2 := by
  intro H
  induction H with
  | nil =>
    intro h
    simp only [List.nil_append, joinStr] at h
    exact strApp_cancel_left h
  | cons x xs ih =>
    intro h
    refine ih ?_
    cases xs with
    | nil =>
      simp only [List.nil_append, List.cons_append, List.append_nil, joinStr] at h ⊢
      exact strApp_cancel_left h
    | cons y ys =>
      have hsh : ∀ J, joinStr "::" ((x :: (y :: ys)) ++ [p ++ J]) =
          x ++ "::" ++ joinStr "::" ((y :: ys) ++ [p ++ J]) := by
        intro J
        rfl
      rw [List.cons_append, List.cons_append] at h
      have h2 : x ++ "::" ++ joinStr "::" (y :: (ys ++ [p ++ J1])) =
          x ++ "::" ++ joinStr "::" (y :: (ys ++ [p ++ J2])) := by
        simpa [joinStr] using h
      have := strApp_cancel_left h2
      simpa using this

lemma headerSegOf_congr (r1 r2 : RequestRec) (v : CacheVary)
    (h : ∀ hn ∈ v.headers, hGet r1.headers hn = hGet r2.headers hn) :
    headerSegOf r1 v = headerSegOf r2 v := by
  unfold headerSegOf
  split
  · refine congrArg (fun s => ["h=" ++ s]) ?_
    refine congrArg (joinStr ",") ?_
    refine List.map_congr_left ?_
    intro hn hhn
    rw [h hn ((mem_sortBy _ hn v.headers).mp hhn)]
  · rfl

lemma cookie_join_inj (r1 r2 : RequestRec) (v : CacheVary) (cname v1 v2 : String)
    (hmem : cname ∈ v.cookies)
    (hv1 : getCookieValue r1 cname = some v1)
    (hv2 : getCookieValue r2 cname = some v2)
    (hagree : ∀ cn ∈ v.cookies, cn ≠ cname →
      getCookieValue r1 cn = getCookieValue r2 cn)
    (hj : joinStr ","
        ((sortStrings v.cookies).map (fun cn =>
          cn ++ ":" ++ ((getCookieValue r1 cn).getD ""))) =
      joinStr ","
        ((sortStrings v.cookies).map (fun cn =>
          cn ++ ":" ++ ((getCookieValue r2 cn).getD "")))) :
    v1 = v2 := by
  set sorted := sortStrings v.cookies with hsorted
  set F1 : String → String :=
    fun n => n ++ ":" ++ ((getCookieValue r1 n).getD "") with hF1
  set F2 : String → String :=
    fun n => n ++ ":" ++ ((getCookieValue r2 n).getD "") with hF2
  set A1 : List Char := (cname ++ ":" ++ v1).data with hA1
  set A2 : List Char := (cname ++ ":" ++ v2).data with hA2
  set ms : List (Option (List Char)) := sorted.map (fun n =>
    if n = cname then none else some ((F1 n).data)) with hms
  have hmapA1 : ms.map (fun o => o.getD A1) = (sorted.map F1).map String.data := by
    rw [hms, List.map_map, List.map_map]
    refine List.map_congr_left (fun n hn => ?_)
    by_cases hcond : n = cname
    · simp only [Function.comp, hcond, if_pos rfl, Option.getD_none]
      rw [hA1, hF1]
      simp [hv1]
    · simp only [Function.comp, if_neg hcond, Option.getD_some]
  have hmapA2 : ms.map (fun o => o.getD A2) = (sorted.map F2).map String.data := by
    rw [hms, List.map_map, List.map_map]
    refine List.map_congr_left (fun n hn => ?_)
    by_cases hcond : n = cname
    · simp only [Function.comp, hcond, if_pos rfl, Option.getD_none]
      rw [hA2, hF2]
      simp [hv2]
    · simp only [Function.comp, if_neg hcond, Option.getD_some]
      rw [hF1, hF2]
      have := hagree n ((mem_sortBy _ n v.cookies).mp (hsorted ▸ hn)) hcond
      simp [this]
  have hnone : none ∈ ms := by
    rw [hms]
    exact List.mem_map.mpr ⟨cname, (mem_sortBy _ cname v.cookies).mpr hmem, by simp⟩
  have hdata := congrArg String.data hj
  rw [joinStr_data, joinStr_data] at hdata
  rw [← hmapA1, ← hmapA2] at hdata
  have hAB := joinSep_subst (",".data) A1 A2 ms hnone hdata
  rw [hA1, hA2] at hAB
  exact strApp_cancel_left (String.ext hAB)

lemma key_ne_of_cookie_diff (r1 r2 : RequestRec) (v : CacheVary)
    (cname v1 v2 : String)
    (hm1 : r1.method = "GET") (hm2 : r2.method = "GET")
    (hurl : r1.url = r2.url)
    (hmem : cname ∈ v.cookies)
    (hv1 : getCookieValue r1 cname = some v1)
    (hv2 : getCookieValue r2 cname = some v2)
    (hne : v1 ≠ v2)
    (hagree : ∀ cn ∈ v.cookies, cn ≠ cname →
      getCookieValue r1 cn = getCookieValue r2 cn)
    (hheads : ∀ hn ∈ v.headers, hGet r1.headers hn = hGet r2.headers hn) :
    defaultGetCacheKey r1 (some v) ≠ defaultGetCacheKey r2 (some v) := by
  intro hk
  have hvc : v.cookies ≠ [] := fun h => by rw [h] at hmem; exact nomatch hmem
  have hhs := headerSegOf_congr r1 r2 v hheads
  have hqp := queryPartOf_congr r1 r2 v hurl
  have hc1 : cookieSegOf r1 v =
      ["c=" ++ joinStr ","
        ((sortStrings v.cookies).map (fun cn =>
          cn ++ ":" ++ ((getCookieValue r1 cn).getD "")))] := by
    unfold cookieSegOf
    rw [if_pos (List.length_pos.mpr hvc)]
  have hc2 : cookieSegOf r2 v =
      ["c=" ++ joinStr ","
        ((sortStrings v.cookies).map (fun cn =>
          cn ++ ":" ++ ((getCookieValue r2 cn).getD "")))] := by
    unfold cookieSegOf
    rw [if_pos (List.length_pos.mpr hvc)]
  have hvp1 : (headerSegOf r1 v ++ cookieSegOf r1 v).length > 0 := by
    rw [hc1]; simp
  have hvp2 : (headerSegOf r2 v ++ cookieSegOf r2 v).length > 0 := by
    rw [hc2]; simp
  rw [key_vary_form r1 v hm1 hvp1, key_vary_form r2 v hm2 hvp2] at hk
  rw [hurl, hqp, hhs, hc1, hc2] at hk
  have hk2 := strApp_cancel_left hk
  have hJ := joinStr_last_cancel "c=" _ _ (headerSegOf r2 v) hk2
  exact hne (cookie_join_inj r1 r2 v cname v1 v2 hmem hv1 hv2 hagree hJ)

lemma joinStr_map_subst (sep : String) (D : List String) (x : String)
    (hx : x ∈ D) (e1 e2 : String → String)
    (hagree : ∀ n ∈ D, n ≠ x → e1 n = e2 n)
    (hj : joinStr sep (D.map e1) = joinStr sep (D.map e2)) :
    e1 x = e2 x := by
  set A1 : List Char := (e1 x).data with hA1
  set A2 : List Char := (e2 x).data with hA2
  set ms : List (Option (List Char)) := D.map (fun n =>
    if n = x then none else some ((e1 n).data)) with hms
  have hmapA1 : ms.map (fun o => o.getD A1) = (D.map e1).map String.data := by
    rw [hms, List.map_map, List.map_map]
    refine List.map_congr_left (fun n hn => ?_)
    by_cases hcond : n = x
    · simp [Function.comp, hcond]
    · simp only [Function.comp, if_neg hcond, Option.getD_some]
  have hmapA2 : ms.map (fun o => o.getD A2) = (D.map e2).map String.data := by
    rw [hms, List.map_map, List.map_map]
    refine List.map_congr_left (fun n hn => ?_)
    by_cases hcond : n = x
    · simp [Function.comp, hcond]
    · simp only [Function.comp, if_neg hcond, Option.getD_some]
      rw [hagree n hn hcond]
  have hnone : none ∈ ms := by
    rw [hms]
    exact List.mem_map.mpr ⟨x, hx, by simp⟩
  have hdata := congrArg String.data hj
  rw [joinStr_data, joinStr_data] at hdata
  rw [← hmapA1, ← hmapA2] at hdata
  exact String.ext (joinSep_subst (sep.data) A1 A2 ms hnone hdata)

lemma getCookieValue_congr (r1 r2 : RequestRec) (cn : String)
    (h : r1.headers = r2.headers) : getCookieValue r1 cn = getCookieValue r2 cn := by
  unfold getCookieValue
  rw [h]

lemma key_ne_of_query_diff (r1 r2 : RequestRec) (v : CacheVary)
    (qname v1 v2 : String)
    (hm1 : r1.method = "GET") (hm2 : r2.method = "GET")
    (horigin : r1.url.origin = r2.url.origin)
    (hpath : r1.url.pathname = r2.url.pathname)
    (hheaders : r1.headers = r2.headers)
    (hmem : qname ∈ v.query)
    (hv1 : spGet r1.url.searchParams qname = some v1)
    (hv2 : spGet r2.url.searchParams qname = some v2)
    (hne : v1 ≠ v2)
    (hagree : ∀ qn ∈ v.query, qn ≠ qname →
      spGet r1.url.searchParams qn = spGet r2.url.searchParams qn) :
    defaultGetCacheKey r1 (some v) ≠ defaultGetCacheKey r2 (some v) := by
  intro hk
  have hvq : v.query ≠ [] := fun h => by rw [h] at hmem; exact nomatch hmem
  have hhs : headerSegOf r1 v = headerSegOf r2 v :=
    headerSegOf_congr r1 r2 v (fun hn _ => by rw [hheaders])
  have hcs : cookieSegOf r1 v = cookieSegOf r2 v :=
    cookieSegOf_congr r1 r2 v (fun cn _ => getCookieValue_congr r1 r2 cn hheaders)
  -- the built searchKey of each request
  have hqmem : qname ∈ dedupAvoid [] (sortStrings v.query) :=
    mem_dedupAvoid (sortStrings v.query) [] qname
      ((mem_sortBy _ qname v.query).mpr hmem) (by simp)
  have hqp : queryPartOf r1 v = queryPartOf r2 v → v1 = v2 := by
    intro hqp
    unfold queryPartOf at hqp
    rw [if_pos (List.length_pos.mpr hvq), if_pos (List.length_pos.mpr hvq)] at hqp
    rw [uspBuild_eq, uspBuild_eq] at hqp
    have hDlen : 0 < ((dedupAvoid [] (sortStrings v.query)).map
        (fun n => (n, (spGet r1.url.searchParams n).getD ""))).length := by
      simp only [List.length_map]
      exact List.length_pos.mpr (fun h => by rw [h] at hqmem; exact nomatch hqmem)
    rw [if_pos hDlen] at hqp
    have hDlen2 : 0 < ((dedupAvoid [] (sortStrings v.query)).map
        (fun n => (n, (spGet r2.url.searchParams n).getD ""))).length := by
      simp only [List.length_map]
      exact List.length_pos.mpr (fun h => by rw [h] at hqmem; exact nomatch hqmem)
    rw [if_pos hDlen2] at hqp
    have henc := strApp_cancel_left hqp
    unfold formEncodePairs at henc
    rw [List.map_map, List.map_map] at henc
    have hfq := joinStr_map_subst "&" (dedupAvoid [] (sortStrings v.query)) qname hqmem
      (fun n => formUrlEncode n ++ "=" ++ formUrlEncode ((spGet r1.url.searchParams n).getD ""))
      (fun n => formUrlEncode n ++ "=" ++ formUrlEncode ((spGet r2.url.searchParams n).getD ""))
      (by
        intro n hn hnx
        have hnq : n ∈ v.query := (mem_sortBy _ n v.query).mp
          (dedupAvoid_sub (sortStrings v.query) [] n hn)
        simp only [hagree n hnq hnx])
      (by
        refine henc.trans ?_
        rfl)
    have hv : formUrlEncode ((spGet r1.url.searchParams qname).getD "") =
        formUrlEncode ((spGet r2.url.searchParams qname).getD "") :=
      strApp_cancel_left hfq
    rw [hv1, hv2] at hv
    exact formUrlEncode_inj v1 v2 (by simpa using hv)
  -- peel the key equation down to the query parts
  unfold defaultGetCacheKey at hk
  rw [if_neg (by simp [hm1]), if_neg (by simp [hm2])] at hk
  simp only [] at hk
  rw [hhs, hcs, horigin, hpath] at hk
  apply hne
  apply hqp
  by_cases hvp : (headerSegOf r2 v ++ cookieSegOf r2 v).length > 0
  · rw [if_pos hvp, if_pos hvp] at hk
    have h1 := strApp_cancel_right hk
    have h2 := strApp_cancel_right h1
    have h3 : r2.url.origin ++ r2.url.pathname ++ queryPartOf r1 v =
        r2.url.origin ++ r2.url.pathname ++ queryPartOf r2 v := by
      simpa [String.append_assoc] using h2
    exact strApp_cancel_left (by
      have := h3
      rw [String.append_assoc, String.append_assoc] at this
      exact strApp_cancel_left this)
  · rw [if_neg hvp, if_neg hvp] at hk
    have h3 : r2.url.origin ++ (r2.url.pathname ++ queryPartOf r1 v) =
        r2.url.origin ++ (r2.url.pathname ++ queryPartOf r2 v) := by
      simpa [String.append_assoc] using hk
    exact strApp_cancel_left (strApp_cancel_left h3)

/-- C3, corrected: two GET requests that differ only in the present value of
one dimension listed in the vary rule (header, cookie or query parameter)
always derive different cache keys. (The claim's second half — that the
vary separator cannot occur in a bare key — is false: see the
counterexample, where a crafted pathname collides with a vary-qualified
key.) -/
theorem C3_amended (r1 r2 : RequestRec) (v : CacheVary)
    (hm1 : r1.method = "GET") (hm2 : r2.method = "GET")
    (hd : DiffersInVariedHeader r1 r2 v ∨ DiffersInVariedCookie r1 r2 v ∨
      DiffersInVariedQuery r1 r2 v) :
    defaultGetCacheKey r1 (some v) ≠ defaultGetCacheKey r2 (some v) := by
  rcases hd with ⟨hn, v1, v2, hurl, hmem, hv1, hv2, hne, hagree, hcookie⟩ |
    ⟨cn, v1, v2, hurl, hmem, hv1, hv2, hne, hagree, hheads⟩ |
    ⟨qn, v1, v2, ho, hp, hh, hmem, hv1, hv2, hne, hagree⟩
  · exact key_ne_of_header_diff r1 r2 v hn v1 v2 hm1 hm2 hurl hmem hv1 hv2 hne
      hagree hcookie
  · exact key_ne_of_cookie_diff r1 r2 v cn v1 v2 hm1 hm2 hurl hmem hv1 hv2 hne
      hagree hheads
  · exact key_ne_of_query_diff r1 r2 v qn v1 v2 hm1 hm2 ho hp hh hmem hv1 hv2 hne
      hagree

/-- C3 counterexample: the vary-qualified key of `GET https://e.com/x` with
`a: 1` varied equals the bare (un-varied) key of the different request
`GET https://e.com/x::h=a:1`, because `::` can occur in a pathname. -/
theorem C3_counterexample :
    defaultGetCacheKey c3Req1 (some ⟨["a"], [], []⟩) =
      defaultGetCacheKey c3Req2 none ∧
    c3Req1.url ≠ c3Req2.url := by decide

/-- C3 witness: varying header `a` separates `a: 1` from `a: 2`. -/
theorem C3_witness :
    defaultGetCacheKey c3Req1 (some ⟨["a"], [], []⟩) ≠
      defaultGetCacheKey c3Req1b (some ⟨["a"], [], []⟩) :=
  C3_amended c3Req1 c3Req1b ⟨["a"], [], []⟩ (by decide) (by decide)
    (Or.inl ⟨"a", "1", "2", rfl, by decide, by decide, by decide, by decide,
      by decide, by decide⟩)
